import Mathlib

/-!
Verification development for the `UrbitSSEClient` class of this repository
(file `src/unnamed/part_000`).  The client is shallowly embedded: JavaScript
strings are modelled as `List Char`, the `this`-object as the `ClientState`
structure, network requests as explicit request traces with outcome oracles,
and the asynchronous reconnect loop as a fuel-indexed recursive function
(the fuel is exactly the remaining attempt budget, so the embedding is
total and executable).
-/

namespace UrbitSSE

/-- A JSON value, as produced by `JSON.parse`.  The router inspects only the
`response`, `id` and `json` fields of the decoded payload; the `json` field
is passed to handlers opaquely, so this small value type suffices. -/
inductive Json where
  | jnull
  | jbool (b : Bool)
  | jnum (n : Int)
  | jstr (s : String)
  | jarr (elems : List Json)
  | jobj (fields : List (String × Json))

/-- JavaScript truthiness of a JSON value (`null`, `false`, `0` and `""` are
falsy; arrays and objects are always truthy). -/
def jsTruthy : Json → Bool
  | .jnull => false
  | .jbool b => b
  | .jnum n => n != 0
  | .jstr s => s != ""
  | .jarr _ => true
  | .jobj _ => true

/-- The three fields of a decoded event payload that `processEvent` consults:
`parsed.response`, `parsed.id`, `parsed.json`.  A missing field is `none`. -/
structure Payload where
  response : Option String
  id : Option Int
  json : Option Json

/-- The handler triple stored by `subscribe` in `this.eventHandlers`:
which of the optional callbacks `event`, `err`, `quit` were supplied. -/
structure HandlerSet where
  hasEvent : Bool
  hasErr : Bool
  hasQuit : Bool
deriving DecidableEq

/-- One element of the `this.subscriptions` array pushed by `subscribe`
(the constant field `action: "subscribe"` is materialised when the batch is
serialised into a request). -/
structure SubEntry where
  id : Int
  ship : String
  app : String
  path : String
deriving DecidableEq

/-- The mutable state of a `UrbitSSEClient` instance.  The channel id/url pair
is regenerated random data and is abstracted away (its regeneration shows up
as `connectAttempt` events); `ship` abstracts the regex extraction from the
constructor's `url`, which is constant for the lifetime of the instance. -/
structure ClientState where
  ship : String
  subscriptions : List SubEntry
  eventHandlers : List (Int × HandlerSet)
  aborted : Bool
  isConnected : Bool
  autoReconnect : Bool
  reconnectAttempts : Nat
  maxReconnectAttempts : Nat
  reconnectDelay : Nat
  maxReconnectDelay : Nat

/-- A freshly constructed client (`new UrbitSSEClient(url, cookie, options)`):
empty subscription list and handler map, not aborted, zero reconnect
attempts. -/
def initClient (ship : String) (autoReconnect : Bool) (maxAttempts delay maxDelay : Nat) :
    ClientState :=
  { ship := ship
    subscriptions := []
    eventHandlers := []
    aborted := false
    isConnected := false
    autoReconnect := autoReconnect
    reconnectAttempts := 0
    maxReconnectAttempts := maxAttempts
    reconnectDelay := delay
    maxReconnectDelay := maxDelay }

/-! ## Stream Reader (`processStream`, lines 134-165)

The reader receives byte chunks from the transport, decodes each one in
isolation (`buffer += chunk.toString()`, line 146), appends the result to a
growing text buffer, and repeatedly extracts everything before the first
`"\n\n"` as one frame (`buffer.indexOf("\n\n")` / `substring`).
`splitOnce` is `indexOf("\n\n")` + the two `substring` calls;
`extractFrames` is the `while` loop.  The `while` loop runs at most
`buffer.length` times (each iteration removes at least the two delimiter
characters), so the loop is embedded with that bound as structural fuel.
The per-chunk `toString` decode is modelled below (`utf8Decode`,
`feedChunkBytes`, `processBytes`). -/

/-- Split a buffer at the first occurrence of the frame delimiter `"\n\n"`:
`some (before, after)` when the delimiter occurs, `none` otherwise.
Mirrors `buffer.indexOf("\n\n")`, `buffer.substring(0, eventEnd)` and
`buffer.substring(eventEnd + 2)`. -/
def splitOnce : List Char → Option (List Char × List Char)
  | [] => none
  | [_] => none
  | c :: d :: rest =>
    if c = '\n' ∧ d = '\n' then some ([], rest)
    else
      match splitOnce (d :: rest) with
      | none => none
      | some (a, b) => some (c :: a, b)

/-- The body of the `while ((eventEnd = buffer.indexOf("\n\n")) !== -1)` loop,
with explicit fuel.  Returns the extracted frames in order together with the
retained remainder of the buffer. -/
def extractAux : Nat → List Char → List (List Char) × List Char
  | 0, buf => ([], buf)
  | fuel + 1, buf =>
    match splitOnce buf with
    | none => ([], buf)
    | some (frame, rest) =>
      (frame :: (extractAux fuel rest).1, (extractAux fuel rest).2)

/-- Extract all complete frames from the buffer (the `while` loop of
`processStream`); `buf.length` iterations of fuel always suffice. -/
def extractFrames (buf : List Char) : List (List Char) × List Char :=
  extractAux buf.length buf

/-- The character-level loop body: append an already-decoded text chunk to
the buffer, then extract every complete frame.  This is the loop body as it
behaves when the byte chunk's independent `chunk.toString()` decode is
exact — that is, when the chunk boundary falls between characters; the
faithful byte-level iteration is `feedChunkBytes` below. -/
def feedChunk (acc : List (List Char) × List Char) (chunk : List Char) :
    List (List Char) × List Char :=
  let (fs, r) := extractFrames (acc.2 ++ chunk)
  (acc.1 ++ fs, r)

/-- The character-level chunk run (see `feedChunk`): the restriction of the
stream loop to character-aligned chunk boundaries.  The faithful byte-level
run is `processBytes` below. -/
def processChunks (chunks : List (List Char)) : List (List Char) × List Char :=
  chunks.foldl feedChunk ([], [])

/-! ### Byte-level chunks and `chunk.toString()`

The transport hands `processStream` byte buffers, and line 146 decodes each
chunk in isolation: `buffer += chunk.toString()`.  `toString` performs UTF-8
decoding with the replacement policy (WHATWG "maximal subpart": an invalid
or truncated sequence yields U+FFFD and decoding resumes at the first
unconsumed byte), so a chunk boundary inside a multi-byte character
corrupts that character.  Bytes are modelled as `Nat` (0-255). -/

/-- The replacement character U+FFFD emitted for invalid or truncated UTF-8
sequences. -/
def repl : Char := Char.ofNat 0xFFFD

/-- Decode one UTF-8 sequence: given the lead byte and the following bytes,
return the decoded character (or U+FFFD) and the number of bytes consumed
(1-4, at least 1).  The continuation bytes are fetched with default 0,
which is never a valid continuation, so a truncated tail behaves exactly
like an invalid one at the right consumption count (maximal-subpart
policy); lead-byte ranges encode the usual overlong / surrogate /
out-of-range exclusions. -/
def utf8Step (b : Nat) (rest : List Nat) : Char × Nat :=
  let c1 := rest.getD 0 0
  let c2 := rest.getD 1 0
  let c3 := rest.getD 2 0
  if b < 0x80 then (Char.ofNat b, 1)
  else if 0xC2 ≤ b ∧ b ≤ 0xDF then
    if 0x80 ≤ c1 ∧ c1 ≤ 0xBF then (Char.ofNat ((b - 0xC0) * 64 + (c1 - 0x80)), 2)
    else (repl, 1)
  else if 0xE0 ≤ b ∧ b ≤ 0xEF then
    if (0x80 ≤ c1 ∧ c1 ≤ 0xBF) ∧ (b = 0xE0 → 0xA0 ≤ c1) ∧ (b = 0xED → c1 ≤ 0x9F) then
      if 0x80 ≤ c2 ∧ c2 ≤ 0xBF then
        (Char.ofNat ((b - 0xE0) * 4096 + (c1 - 0x80) * 64 + (c2 - 0x80)), 3)
      else (repl, 2)
    else (repl, 1)
  else if 0xF0 ≤ b ∧ b ≤ 0xF4 then
    if (0x80 ≤ c1 ∧ c1 ≤ 0xBF) ∧ (b = 0xF0 → 0x90 ≤ c1) ∧ (b = 0xF4 → c1 ≤ 0x8F) then
      if 0x80 ≤ c2 ∧ c2 ≤ 0xBF then
        if 0x80 ≤ c3 ∧ c3 ≤ 0xBF then
          (Char.ofNat ((b - 0xF0) * 0x40000 + (c1 - 0x80) * 4096
            + (c2 - 0x80) * 64 + (c3 - 0x80)), 4)
        else (repl, 3)
      else (repl, 2)
    else (repl, 1)
  else (repl, 1)

/-- The UTF-8 decoding loop with explicit fuel (one unit per decoded
character; the buffer length always suffices since every step consumes at
least one byte). -/
def utf8DecodeAux : Nat → List Nat → List Char
  | 0, _ => []
  | _ + 1, [] => []
  | fuel + 1, b :: rest =>
    (utf8Step b rest).1 :: utf8DecodeAux fuel (List.drop ((utf8Step b rest).2 - 1) rest)

/-- `Buffer.prototype.toString('utf8')` as applied to one chunk in
isolation (line 146). -/
def utf8Decode (bs : List Nat) : List Char := utf8DecodeAux bs.length bs

/-- Standard UTF-8 encoding of one character. -/
def utf8EncodeChar (c : Char) : List Nat :=
  let v := c.toNat
  if v < 0x80 then [v]
  else if v < 0x800 then [0xC0 + v / 64, 0x80 + v % 64]
  else if v < 0x10000 then [0xE0 + v / 4096, 0x80 + v / 64 % 64, 0x80 + v % 64]
  else [0xF0 + v / 0x40000, 0x80 + v / 4096 % 64, 0x80 + v / 64 % 64, 0x80 + v % 64]

/-- UTF-8 encoding of a character string — how the ship's text reaches the
wire as bytes. -/
def utf8Encode (s : List Char) : List Nat := (s.map utf8EncodeChar).flatten

/-- One iteration of `for await (const chunk of stream)` at the byte level
(lines 143-155): the arriving byte chunk is decoded in isolation by
`buffer += chunk.toString()` and appended to the text buffer, then every
complete frame is extracted. -/
def feedChunkBytes (acc : List (List Char) × List Char) (chunk : List Nat) :
    List (List Char) × List Char :=
  (acc.1 ++ (extractFrames (acc.2 ++ utf8Decode chunk)).1,
   (extractFrames (acc.2 ++ utf8Decode chunk)).2)

/-- Run the stream reader over a sequence of byte chunks, starting from the
empty buffer (`let buffer = ""`): the faithful model of the `processStream`
loop.  Returns all frames handed to `processEvent`, in order, and the final
buffer. -/
def processBytes (chunks : List (List Nat)) : List (List Char) × List Char :=
  chunks.foldl feedChunkBytes ([], [])

/-- The frame delimiter. -/
def frameDelim : List Char := ['\n', '\n']

/-- A well-formed wire frame: it contains no blank line (no `"\n\n"`), and it
does not end in a newline — equivalently, appending a single `'\n'` still
creates no delimiter.  (SSE frames are newline-separated non-empty lines, so
the frames the ship emits satisfy this.) -/
def validFrame (f : List Char) : Bool :=
  (splitOnce (f ++ ['\n'])).isNone

/-- Serialise a frame sequence onto the wire: each frame followed by the
blank-line delimiter. -/
def encodeFrames (fs : List (List Char)) : List Char :=
  (fs.map (fun f => f ++ frameDelim)).flatten

/-! ## Event Router (`processEvent`, lines 170-222) -/

/-- Split a buffer into lines at `'\n'` — `eventData.split("\n")`. -/
def splitLines : List Char → List (List Char)
  | [] => [[]]
  | c :: rest =>
    match splitLines rest with
    | [] => [[]]
    | l :: ls => if c = '\n' then [] :: l :: ls else (c :: l) :: ls

/-- The line scan of `processEvent` (lines 171-181): the last `"id: "` line
(without its 4-character tag) and the last `"data: "` line (without its
6-character tag). -/
def parseFrame (eventData : List Char) : Option (List Char) × Option (List Char) :=
  (splitLines eventData).foldl
    (fun acc line =>
      if ("id: ".toList).isPrefixOf line then (some (line.drop 4), acc.2)
      else if ("data: ".toList).isPrefixOf line then (acc.1, some (line.drop 6))
      else acc)
    (none, none)

/-- An observable handler invocation made by the router.  The source
distinguishes the exact-match branch from the broadcast branch by its own
log lines ("Calling handler for subscription" vs "Broadcasting event to all
handlers"), so the two are distinct observations; `broadcast` records the
ids of every subscription whose `event` handler is invoked, in registry
order. -/
inductive Call where
  | deliver (subId : Int) (content : Json)
  | broadcast (subIds : List Int) (content : Json)
  | quitCall (subId : Int)

/-- The quit branch (lines 189-196): look the payload's `id` up in
`eventHandlers` and invoke the `quit` handler when both exist.  Note: the
source does not delete the registry entry. -/
def quitCalls (st : ClientState) (p : Payload) : List Call :=
  match p.id with
  | none => []
  | some i =>
    match st.eventHandlers.lookup i with
    | none => []
    | some hs => if hs.hasQuit then [Call.quitCall i] else []

/-- The content dispatch (lines 204-218).  `parsed.id && eventHandlers.has(parsed.id)`
selects the exact-match branch (JavaScript truthiness: an id of `0` is
falsy); otherwise a truthy `parsed.json` is broadcast to every registered
`event` handler. -/
def routeContent (st : ClientState) (p : Payload) : List Call :=
  let matched : Option (Int × HandlerSet) :=
    match p.id with
    | some i =>
      if i == 0 then none
      else
        match st.eventHandlers.lookup i with
        | some hs => some (i, hs)
        | none => none
    | none => none
  match matched with
  | some (i, hs) =>
    match p.json with
    | some j => if hs.hasEvent && jsTruthy j then [Call.deliver i j] else []
    | none => []
  | none =>
    match p.json with
    | some j =>
      if jsTruthy j then
        [Call.broadcast ((st.eventHandlers.filter (fun e => e.2.hasEvent)).map (fun e => e.1)) j]
      else []
    | none => []

/-- `processEvent` (lines 170-222).  `decode` abstracts `JSON.parse` (a pure
function of the data string; `none` models a thrown parse error, which the
source catches and drops).  A falsy data field (`!data`: missing or empty)
drops the frame.  The returned state is the input state: `processEvent`
mutates nothing — in particular the quit branch does not remove the
subscription. -/
def processEvent (decode : List Char → Option Payload) (st : ClientState)
    (eventData : List Char) : ClientState × List Call :=
  match (parseFrame eventData).2 with
  | none => (st, [])
  | some d =>
    if d.isEmpty then (st, [])
    else
      match decode d with
      | none => (st, [])
      | some p =>
        if p.response == some "quit" then (st, quitCalls st p)
        else (st, routeContent st p)

/-! ## Subscription Registry (`subscribe`, lines 35-50)

`subscribe` allocates `this.subscriptions.length + 1` as the id, pushes the
subscribe action onto `this.subscriptions`, stores the handler triple in
`this.eventHandlers`, and returns the id.  Its body contains no network
request. -/

/-- `subscribe({app, path, event, err, quit})`. -/
def subscribe (st : ClientState) (app path : String) (hs : HandlerSet) :
    ClientState × Int :=
  let subId : Int := (st.subscriptions.length : Int) + 1
  ({ st with
      subscriptions := st.subscriptions ++ [⟨subId, st.ship, app, path⟩]
      eventHandlers := st.eventHandlers ++ [(subId, hs)] },
   subId)

/-- Iterate `subscribe` over a list of specifications, collecting the
returned ids in order. -/
def subscribeAll (st : ClientState) :
    List (String × String × HandlerSet) → ClientState × List Int
  | [] => (st, [])
  | spec :: specs =>
    let r := subscribe st spec.1 spec.2.1 spec.2.2
    let rest := subscribeAll r.1 specs
    (rest.1, r.2 :: rest.2)

/-! ## Action Gateway (`connect` lines 55-98, `openStream` lines 103-129,
`close` lines 339-370)

Network requests are recorded in a trace; each `fetch` consults an outcome
oracle `net : Nat → Except String Nat` indexed by the position of the fetch
in the function body (`Except.error` models a rejected fetch, `Except.ok s`
a response with HTTP status `s`). -/

/-- A single batched channel action (one element of a PUT body). -/
inductive ChanAction where
  | subscribeAct (id : Int) (ship app path : String)
  | unsubscribeAct (id : Int) (subscription : Int)
  | pokeAct (ship app mark : String) (json : String)
deriving DecidableEq

/-- A network request issued against the ship (the channel endpoint PUT/GET/
DELETE requests of the client). -/
inductive NetReq where
  | putBatch (body : List ChanAction)
  | getStream
  | deleteChannel
deriving DecidableEq

/-- `response.ok`: HTTP status in the 2xx range. -/
def respOk (s : Nat) : Bool := 200 ≤ s && s < 300

/-- The serialised form of a stored subscription inside a channel-creation
batch. -/
def toSubscribeAct (s : SubEntry) : ChanAction :=
  .subscribeAct s.id s.ship s.app s.path

/-- `connect()` (lines 55-98): PUT the full current subscription batch,
PUT the `helm-hi` activation poke, then GET the event stream
(`openStream`, lines 103-114; its status check is `!response.ok` with no
204 exemption).  On success set `isConnected` and reset
`reconnectAttempts`; on failure the state is unchanged and an error is
thrown.  (The poke's `Date.now()` id is timestamp noise and is not
modelled; no claim mentions it.) -/
def connect (st : ClientState) (net : Nat → Except String Nat) :
    Except String Unit × ClientState × List NetReq :=
  let createReq := NetReq.putBatch (st.subscriptions.map toSubscribeAct)
  match net 0 with
  | .error e => (.error e, st, [createReq])
  | .ok s1 =>
    if !respOk s1 && s1 != 204 then (.error "Channel creation failed", st, [createReq])
    else
      let pokeReq := NetReq.putBatch [.pokeAct st.ship "hood" "helm-hi" "Opening API channel"]
      match net 1 with
      | .error e => (.error e, st, [createReq, pokeReq])
      | .ok s2 =>
        if !respOk s2 && s2 != 204 then
          (.error "Channel activation failed", st, [createReq, pokeReq])
        else
          match net 2 with
          | .error e => (.error e, st, [createReq, pokeReq, .getStream])
          | .ok s3 =>
            if !respOk s3 then
              (.error "Stream connection failed", st, [createReq, pokeReq, .getStream])
            else
              (.ok (),
               { st with isConnected := true, reconnectAttempts := 0 },
               [createReq, pokeReq, .getStream])

/-- The unsubscribe batch built by `close` (lines 345-349): one
`{id, action: "unsubscribe", subscription: id}` per stored subscription. -/
def unsubBatch (subs : List SubEntry) : List ChanAction :=
  subs.map (fun s => .unsubscribeAct s.id s.id)

/-- The `try` block of `close` (lines 343-366): PUT the unsubscribe batch,
then DELETE the channel.  Either `fetch` may reject (`Except.error`); a
rejection of the first fetch means the DELETE is never attempted.  Neither
response's status is inspected.  Returns the requests that were issued and
the error that escaped the block, if any. -/
def closeBody (subs : List SubEntry) (net : Nat → Except String Nat) :
    List NetReq × Option String :=
  match net 0 with
  | .error e => ([.putBatch (unsubBatch subs)], some e)
  | .ok _ =>
    match net 1 with
    | .error e => ([.putBatch (unsubBatch subs), .deleteChannel], some e)
    | .ok _ => ([.putBatch (unsubBatch subs), .deleteChannel], none)

/-- `close()` (lines 339-370): set `aborted` and clear `isConnected`
unconditionally, run the teardown requests inside `try`, and swallow
(`catch` + `console.error`) whatever error the block produced.  The third
component is the error `close` itself throws — by the `catch`, always
`none`. -/
def close (st : ClientState) (net : Nat → Except String Nat) :
    ClientState × List NetReq × Option String :=
  let st1 := { st with aborted := true, isConnected := false }
  let (reqs, _escaped) := closeBody st1.subscriptions net
  (st1, reqs, none)

/-! ## Reconnect Controller (`attemptReconnect`, lines 284-334)

`connectOk k` is the outcome of the `connect()` call of the `k`-th attempt;
`closedDuringWait k` records whether `close()` was invoked (setting
`aborted`) while the `k`-th backoff `setTimeout` sleep was in flight.  The
source performs no abort check between waking from the sleep and
reconnecting.  The recursion (`attemptReconnect` calling itself after a
failed `connect`) increments `reconnectAttempts` every time and stops once
the budget is reached, so `maxReconnectAttempts - reconnectAttempts + 1`
recursion steps always suffice; that bound is the structural fuel. -/

/-- An observable event of the reconnect controller and stream teardown. -/
inductive REvent where
  | wait (ms : Nat)
  | connectAttempt (k : Nat)
  | reconnected
  | gaveUp
  | errCall (subId : Int)
deriving DecidableEq

/-- The client state after waking from the backoff sleep of attempt
`st.reconnectAttempts + 1`: `this.reconnectAttempts++` happened before the
sleep, and `close()` may have set `aborted` while the sleep was in flight
(the source performs no abort check on wake). -/
def stepState (closedDuringWait : Nat → Bool) (st : ClientState) : ClientState :=
  if closedDuringWait (st.reconnectAttempts + 1) then
    { st with reconnectAttempts := st.reconnectAttempts + 1, aborted := true }
  else { st with reconnectAttempts := st.reconnectAttempts + 1 }

/-- `attemptReconnect` with explicit fuel (always called with enough). -/
def reconnectAux (connectOk closedDuringWait : Nat → Bool) :
    Nat → ClientState → List REvent × ClientState
  | 0, st => ([], st)
  | fuel + 1, st =>
    if st.aborted || !st.autoReconnect then ([], st)
    else if st.maxReconnectAttempts ≤ st.reconnectAttempts then ([.gaveUp], st)
    else
      let k := st.reconnectAttempts + 1
      let delay := min (st.reconnectDelay * 2 ^ (k - 1)) st.maxReconnectDelay
      let st2 := stepState closedDuringWait st
      if connectOk k then
        ([.wait delay, .connectAttempt k, .reconnected],
         { st2 with reconnectAttempts := 0, isConnected := true })
      else
        let r := reconnectAux connectOk closedDuringWait fuel st2
        (.wait delay :: .connectAttempt k :: r.1, r.2)

/-- `attemptReconnect()` (lines 284-334). -/
def attemptReconnect (connectOk closedDuringWait : Nat → Bool) (st : ClientState) :
    List REvent × ClientState :=
  reconnectAux connectOk closedDuringWait
    (st.maxReconnectAttempts - st.reconnectAttempts + 1) st

/-- Stream termination (the `finally` of `processStream`, lines 157-164,
followed by the `.catch` installed by `openStream`, lines 117-125).  If the
client is not aborted and auto-reconnect is on, clear `isConnected` and run
the reconnect controller; then, if the stream had terminated with an error
(`endedWithError`) and the client is (still) not aborted, invoke every
registered `err` handler once with that error. -/
def streamEnd (endedWithError : Bool) (connectOk closedDuringWait : Nat → Bool)
    (st : ClientState) : List REvent × ClientState :=
  let r :=
    if !st.aborted && st.autoReconnect then
      attemptReconnect connectOk closedDuringWait { st with isConnected := false }
    else ([], st)
  let errEvents :=
    if endedWithError && !r.2.aborted then
      (r.2.eventHandlers.filter (fun e => e.2.hasErr)).map (fun e => REvent.errCall e.1)
    else []
  (r.1 ++ errEvents, r.2)

/-- The backoff delays of a reconnect event trace, in order. -/
def waitsOf (es : List REvent) : List Nat :=
  es.filterMap (fun e => match e with | .wait m => some m | _ => none)

/-- The number of reconnection attempts (`connect()` calls) in a trace. -/
def countConnects (es : List REvent) : Nat :=
  (es.filter (fun e => match e with | .connectAttempt _ => true | _ => false)).length

/-- The subscription ids whose `err` handlers a trace invokes, in order. -/
def errCallsOf (es : List REvent) : List Int :=
  es.filterMap (fun e => match e with | .errCall i => some i | _ => none)

/-! ## Whole-session request traces (for the transmission claims) -/

/-- A caller-visible operation on the client, with the network outcomes its
requests will meet. -/
inductive SessionOp where
  | opSubscribe (app path : String) (hs : HandlerSet)
  | opConnect (net : Nat → Except String Nat)
  | opClose (net : Nat → Except String Nat)

/-- Run one operation, returning the new state and the requests it sent. -/
def runStep (st : ClientState) : SessionOp → ClientState × List NetReq
  | .opSubscribe app path hs => ((subscribe st app path hs).1, [])
  | .opConnect net => let r := connect st net; (r.2.1, r.2.2)
  | .opClose net => let r := close st net; (r.1, r.2.1)

/-- Run a sequence of operations, concatenating the request traces. -/
def runSession (st : ClientState) : List SessionOp → ClientState × List NetReq
  | [] => (st, [])
  | op :: ops =>
    let r := runStep st op
    let rest := runSession r.1 ops
    (rest.1, r.2 ++ rest.2)

/-- Does a channel action mention subscription id `i` as a subscribe
action? -/
def mentionsSub (i : Int) : ChanAction → Bool
  | .subscribeAct j _ _ _ => j == i
  | _ => false

/-- Does a request transmit a subscribe action for subscription id `i`? -/
def reqMentionsSub (i : Int) : NetReq → Bool
  | .putBatch body => body.any (mentionsSub i)
  | _ => false

/-- JavaScript truthiness of the optional `parsed.json` field (`undefined` is
falsy). -/
def jsTruthyOpt : Option Json → Bool
  | none => false
  | some j => jsTruthy j

/-! ## Concrete fixtures used by witnesses and counterexamples -/

/-- A handler triple with all three callbacks supplied. -/
def hsAll : HandlerSet := ⟨true, true, true⟩

/-- A handler triple with `event` and `quit` but no `err` callback. -/
def hsEQ : HandlerSet := ⟨true, false, true⟩

/-- A handler triple with only an `event` callback. -/
def hsE : HandlerSet := ⟨true, false, false⟩

/-- A fresh client with the constructor's default options. -/
def stZ : ClientState := initClient "zod" true 10 1000 30000

/-- A client with one registered subscription, id 5. -/
def stFive : ClientState := { stZ with eventHandlers := [(5, hsEQ)] }

/-- A client with two registered subscriptions, ids 1 and 2. -/
def stTwo : ClientState := { stZ with eventHandlers := [(1, hsAll), (2, hsE)] }

/-- A concrete `JSON.parse` for the fixture frames: `"q5"` decodes to a quit
payload naming subscription 5, `"d5"` to a diff addressed to subscription 5. -/
def decQuitDiff : List Char → Option Payload := fun d =>
  if d = "q5".toList then some ⟨some "quit", some 5, none⟩
  else if d = "d5".toList then some ⟨some "diff", some 5, some (Json.jnum 1)⟩
  else none

/-- A concrete `JSON.parse` for the dispatch fixtures: `"d2"` decodes to a
diff addressed to subscription 2, `"nn"` to a diff with no id. -/
def decTwo : List Char → Option Payload := fun d =>
  if d = "d2".toList then some ⟨some "diff", some 2, some (Json.jnum 7)⟩
  else if d = "nn".toList then some ⟨some "diff", none, some (Json.jnum 9)⟩
  else none

/-- A client configured with `maxReconnectAttempts = 3`, `reconnectDelay = 5`,
`maxReconnectDelay = 1000` (the spec's backoff scenario). -/
def stR : ClientState := initClient "zod" true 3 5 1000

/-- The backoff-scenario client with one registered subscription that has an
`err` handler. -/
def stErr : ClientState := { stR with eventHandlers := [(1, hsAll)] }

/-- A network oracle on which every request succeeds with status 204. -/
def netOk : Nat → Except String Nat := fun _ => .ok 204

/-- A session: register one subscription, connect, then register another
subscription on the now-live channel. -/
def ops9 : List SessionOp :=
  [.opSubscribe "chat" "/dm/x" hsAll, .opConnect netOk, .opSubscribe "channels" "/c/y" hsAll]

/-- The arithmetic sequence `start, start+1, ..., start+n-1` — the shape of
the subscription ids handed out by consecutive `subscribe` calls. -/
def idsFrom (start : Int) : Nat → List Int
  | 0 => []
  | n + 1 => start :: idsFrom (start + 1) n

/-! ## Helper lemmas -/

/-- A successful association-list lookup comes from a member entry. -/
theorem lookup_mem {l : List (Int × HandlerSet)} {i : Int} {hs : HandlerSet}
    (h : l.lookup i = some hs) : (i, hs) ∈ l := by
  induction l with
  | nil => simp [List.lookup] at h
  | cons a l ih =>
    rw [List.lookup] at h
    by_cases hkey : i == a.1
    · simp only [hkey, if_pos] at h
      simp only [beq_iff_eq] at hkey
      injection h with h2
      subst hkey
      subst h2
      exact List.mem_cons_self _ _
    · simp only [hkey] at h
      exact List.mem_cons_of_mem _ (ih h)

/-- The router's call list is always empty or a single call. -/
theorem processEvent_calls_short (decode : List Char → Option Payload)
    (st : ClientState) (e : List Char) :
    (processEvent decode st e).2 = []
      ∨ (∃ i, (processEvent decode st e).2 = [Call.quitCall i])
      ∨ (∃ i j, (processEvent decode st e).2 = [Call.deliver i j])
      ∨ (∃ is j, (processEvent decode st e).2 = [Call.broadcast is j]) := by
  unfold processEvent
  cases (parseFrame e).2 with
  | none => simp
  | some d =>
    simp only
    split
    · simp
    · cases decode d with
      | none => simp
      | some p =>
        simp only
        split
        · unfold quitCalls
          cases p.id with
          | none => simp
          | some i =>
            simp only
            cases st.eventHandlers.lookup i with
            | none => simp
            | some hs =>
              simp only
              split <;> simp
        · unfold routeContent
          simp only
          split
          · cases p.json with
            | none => simp
            | some j =>
              simp only
              split
              · right; right; left
                exact ⟨_, _, rfl⟩
              · simp
          · cases p.json with
            | none => simp
            | some j =>
              simp only
              split
              · right; right; right
                exact ⟨_, _, rfl⟩
              · simp

/-! ## Claim theorems -/

/-- Claim C10 (confirmed): the router's classification and dispatch depend
only on the decoded JSON of the frame's data line; the frame's `"id: "`
header line, although parsed by the same line scan, is never consulted — any
two frames whose line scans agree on the data field (in particular, frames
with the same data line but different or absent `"id:"` lines) produce
exactly the same state and the same handler invocations. -/
theorem c10_data_only (decode : List Char → Option Payload) (st : ClientState)
    (e1 e2 : List Char) (h : (parseFrame e1).2 = (parseFrame e2).2) :
    processEvent decode st e1 = processEvent decode st e2 := by
  unfold processEvent
  rw [h]

/-- Witness for C10 at concrete input: two frames with the same data line and
different `"id:"` lines are routed identically. -/
theorem c10_data_only_witness :
    processEvent decTwo stTwo ("id: 1\ndata: d2".toList)
      = processEvent decTwo stTwo ("id: 9\ndata: d2".toList) :=
  c10_data_only decTwo stTwo ("id: 1\ndata: d2".toList) ("id: 9\ndata: d2".toList) rfl

/-- Counterexample for claim C1: processing a quit frame naming subscription 5
invokes its quit handler, but does NOT remove it from the registry
(`this.eventHandlers` is unchanged), and a subsequent frame addressed to
subscription 5 is still delivered to its event handler — contradicting the
claim that after a quit every subsequent frame addressed to X is neither
delivered nor broadcast to it. -/
theorem c1_counterexample :
    (processEvent decQuitDiff stFive ("data: q5".toList)).2 = [Call.quitCall 5]
    ∧ (processEvent decQuitDiff stFive ("data: q5".toList)).1.eventHandlers = [(5, hsEQ)]
    ∧ (processEvent decQuitDiff
        (processEvent decQuitDiff stFive ("data: q5".toList)).1
        ("data: d5".toList)).2 = [Call.deliver 5 (Json.jnum 1)] :=
  ⟨rfl, rfl, rfl⟩

/-- Claim C1 (amended): for every frame whose decoded payload has response
kind "quit" naming subscription X, processing the frame invokes X's quit
handler (if present) and delivers nothing else, but it does NOT remove X
from the subscription registry — the client state is returned unchanged, so
a subsequent frame addressed to X is still delivered to X's event
handler. -/
theorem c1_amended (decode : List Char → Option Payload) (st : ClientState)
    (e d : List Char) (p : Payload)
    (hd : (parseFrame e).2 = some d) (hne : d.isEmpty = false)
    (hdec : decode d = some p) (hq : p.response = some "quit") :
    (processEvent decode st e).1 = st
    ∧ (processEvent decode st e).2 = quitCalls st p
    ∧ (∀ i hs, p.id = some i → st.eventHandlers.lookup i = some hs →
        (processEvent decode st e).2 = if hs.hasQuit then [Call.quitCall i] else [])
    ∧ (∀ e2 d2 p2 i hs j, (parseFrame e2).2 = some d2 → d2.isEmpty = false →
        decode d2 = some p2 → p2.response ≠ some "quit" →
        p2.id = some i → i ≠ 0 → st.eventHandlers.lookup i = some hs →
        hs.hasEvent = true → p2.json = some j → jsTruthy j = true →
        (processEvent decode (processEvent decode st e).1 e2).2 = [Call.deliver i j]) := by
  have hmain : processEvent decode st e = (st, quitCalls st p) := by
    unfold processEvent
    rw [hd]
    simp only [hne, Bool.false_eq_true, if_neg, hdec, hq]
    simp
  refine ⟨by rw [hmain], by rw [hmain], ?_, ?_⟩
  · intro i hs hpid hlook
    rw [hmain]
    unfold quitCalls
    rw [hpid]
    simp only [hlook]
  · intro e2 d2 p2 i hs j hd2 hne2 hdec2 hq2 hpid2 hi0 hlook2 hev hjson htruthy
    rw [hmain]
    unfold processEvent
    rw [hd2]
    simp only [hne2, Bool.false_eq_true, if_neg, hdec2]
    have hq2f : (p2.response == some "quit") = false := by
      simp only [beq_eq_false_iff_ne, ne_eq]
      exact hq2
    simp only [hq2f, Bool.false_eq_true, if_neg]
    unfold routeContent
    rw [hpid2]
    have hi0f : (i == (0 : Int)) = false := by
      simp only [beq_eq_false_iff_ne, ne_eq]
      exact hi0
    simp only [hi0f, Bool.false_eq_true, if_neg, hlook2, hjson, hev, htruthy,
      Bool.and_self, if_pos]
    simp [hev]

/-- Witness for the amended C1 at concrete input: after the quit frame for
subscription 5, the registry still contains subscription 5 and a diff frame
addressed to it is still delivered. -/
theorem c1_amended_witness :
    (processEvent decQuitDiff stFive ("data: q5".toList)).1 = stFive
    ∧ (processEvent decQuitDiff
        (processEvent decQuitDiff stFive ("data: q5".toList)).1
        ("data: d5".toList)).2 = [Call.deliver 5 (Json.jnum 1)] := by
  have h := c1_amended decQuitDiff stFive ("data: q5".toList) ("q5".toList)
    ⟨some "quit", some 5, none⟩ rfl rfl rfl rfl
  refine ⟨h.1, ?_⟩
  exact h.2.2.2 ("data: d5".toList) ("d5".toList) ⟨some "diff", some 5, some (Json.jnum 1)⟩
    5 hsEQ (Json.jnum 1) rfl rfl rfl (by decide) rfl (by decide) rfl rfl rfl rfl

/-- On a frame whose payload decodes with a non-"quit" response kind, the
router runs the content dispatch and leaves the state unchanged. -/
theorem processEvent_route (decode : List Char → Option Payload) (st : ClientState)
    (e d : List Char) (p : Payload)
    (hd : (parseFrame e).2 = some d) (hne : d.isEmpty = false)
    (hdec : decode d = some p) (hq : p.response ≠ some "quit") :
    processEvent decode st e = (st, routeContent st p) := by
  unfold processEvent
  rw [hd]
  have hqf : (p.response == some "quit") = false := by
    simp only [beq_eq_false_iff_ne, ne_eq]
    exact hq
  simp only [hne, Bool.false_eq_true, if_neg, hdec, hqf]
  simp

/-- On a matched non-zero id, the content dispatch delivers to exactly that
subscription, and only when the content field is truthy and an event handler
exists. -/
theorem routeContent_matched (st : ClientState) (p : Payload) (i : Int) (hs : HandlerSet)
    (hpid : p.id = some i) (hi0 : i ≠ 0)
    (hlook : st.eventHandlers.lookup i = some hs) :
    routeContent st p =
      match p.json with
      | some j => if hs.hasEvent && jsTruthy j then [Call.deliver i j] else []
      | none => [] := by
  unfold routeContent
  rw [hpid]
  have hi0f : (i == (0 : Int)) = false := by
    simp only [beq_eq_false_iff_ne, ne_eq]
    exact hi0
  simp only [hi0f, Bool.false_eq_true, if_neg, hlook]
  simp

/-- On a missing or unmatched id, the content dispatch broadcasts a truthy
content field to every registered event handler and otherwise does
nothing. -/
theorem routeContent_unmatched (st : ClientState) (p : Payload)
    (h : p.id = none ∨ ∃ i, p.id = some i ∧ st.eventHandlers.lookup i = none) :
    routeContent st p =
      match p.json with
      | some j =>
        if jsTruthy j then
          [Call.broadcast ((st.eventHandlers.filter (fun pr => pr.2.hasEvent)).map
            (fun pr => pr.1)) j]
        else []
      | none => [] := by
  unfold routeContent
  rcases h with h | ⟨i, hpid, hlook⟩
  · rw [h]
  · simp only [hpid]
    by_cases hi0 : i == 0 <;> simp [hi0, hlook]

/-- Claim C2 (confirmed): for every frame whose decoded payload is not a quit
(quit takes dispatch priority, per the claim's own ordering clause) and
carries an id matching a registered subscription, the router invokes only
that subscription's event handler, and only when the payload's inner content
field is present (truthy) — never any other handler; for every such frame
whose payload has no id or an id with no matching registration, the truthy
content field is broadcast to every currently registered subscription's
event handler; and no frame whatsoever is both delivered to a specific
handler and broadcast.  The well-formedness hypothesis (no registered id is
0) holds for every reachable registry, since `subscribe` allocates ids from
1. -/
theorem c2_dispatch (decode : List Char → Option Payload) (st : ClientState)
    (e d : List Char) (p : Payload)
    (hwf : ∀ pr ∈ st.eventHandlers, pr.1 ≠ (0 : Int))
    (hd : (parseFrame e).2 = some d) (hne : d.isEmpty = false)
    (hdec : decode d = some p) (hq : p.response ≠ some "quit") :
    (∀ i hs, p.id = some i → st.eventHandlers.lookup i = some hs →
      ((∀ j, p.json = some j → jsTruthy j = true → hs.hasEvent = true →
          (processEvent decode st e).2 = [Call.deliver i j])
        ∧ (∀ c, c ∈ (processEvent decode st e).2 → ∃ j, c = Call.deliver i j)
        ∧ (jsTruthyOpt p.json = false ∨ hs.hasEvent = false →
            (processEvent decode st e).2 = [])))
    ∧ ((p.id = none ∨ ∃ i, p.id = some i ∧ st.eventHandlers.lookup i = none) →
        (∀ j, p.json = some j → jsTruthy j = true →
          (processEvent decode st e).2 =
            [Call.broadcast ((st.eventHandlers.filter (fun pr => pr.2.hasEvent)).map
              (fun pr => pr.1)) j])
        ∧ (jsTruthyOpt p.json = false → (processEvent decode st e).2 = []))
    ∧ (∀ (decode2 : List Char → Option Payload) (st2 : ClientState) (e2 : List Char),
        ¬ ((∃ i j, Call.deliver i j ∈ (processEvent decode2 st2 e2).2)
           ∧ (∃ is j, Call.broadcast is j ∈ (processEvent decode2 st2 e2).2))) := by
  have hroute := processEvent_route decode st e d p hd hne hdec hq
  refine ⟨?_, ?_, ?_⟩
  · intro i hs hpid hlook
    have hi0 : i ≠ 0 := hwf (i, hs) (lookup_mem hlook)
    have hm := routeContent_matched st p i hs hpid hi0 hlook
    rw [hroute]
    simp only
    rw [hm]
    refine ⟨?_, ?_, ?_⟩
    · intro j hjson htr hev
      rw [hjson]
      simp [hev, htr]
    · intro c hc
      cases hjson : p.json with
      | none => rw [hjson] at hc; simp at hc
      | some j =>
        rw [hjson] at hc
        by_cases hcond : hs.hasEvent && jsTruthy j
        · simp only [hcond, if_pos] at hc
          simp only [List.mem_singleton] at hc
          exact ⟨j, hc⟩
        · simp only [Bool.not_eq_true] at hcond
          simp [hcond] at hc
    · intro hoff
      cases hjson : p.json with
      | none => rfl
      | some j =>
        rcases hoff with htr | hev
        · rw [hjson] at htr
          simp only [jsTruthyOpt] at htr
          simp [htr]
        · simp [hev]
  · intro hun
    have hm := routeContent_unmatched st p hun
    rw [hroute]
    simp only
    rw [hm]
    refine ⟨?_, ?_⟩
    · intro j hjson htr
      rw [hjson]
      simp [htr]
    · intro htr
      cases hjson : p.json with
      | none => rfl
      | some j =>
        rw [hjson] at htr
        simp only [jsTruthyOpt] at htr
        simp [htr]
  · intro decode2 st2 e2
    rintro ⟨⟨i, j, hdel⟩, ⟨is, j2, hbr⟩⟩
    rcases processEvent_calls_short decode2 st2 e2 with h0 | ⟨i3, h1⟩ | ⟨i3, j3, h2⟩ | ⟨is3, j3, h3⟩
    · rw [h0] at hdel; simp at hdel
    · rw [h1] at hdel; simp at hdel
    · rw [h2] at hbr; simp at hbr
    · rw [h3] at hdel; simp at hdel

/-- Witness for C2 at concrete inputs: a frame addressed to subscription 2 is
delivered only to subscription 2's handler, and a frame with no id is
broadcast to both registered handlers. -/
theorem c2_dispatch_witness :
    (processEvent decTwo stTwo ("id: 9\ndata: d2".toList)).2 = [Call.deliver 2 (Json.jnum 7)]
    ∧ (processEvent decTwo stTwo ("data: nn".toList)).2
        = [Call.broadcast [1, 2] (Json.jnum 9)] := by
  constructor
  · exact ((c2_dispatch decTwo stTwo ("id: 9\ndata: d2".toList) ("d2".toList)
      ⟨some "diff", some 2, some (Json.jnum 7)⟩ (by decide) rfl rfl rfl (by decide)).1
        2 hsE rfl rfl).1 (Json.jnum 7) rfl rfl rfl
  · have h := ((c2_dispatch decTwo stTwo ("data: nn".toList) ("nn".toList)
      ⟨some "diff", none, some (Json.jnum 9)⟩ (by decide) rfl rfl rfl (by decide)).2.1
        (Or.inl rfl)).1 (Json.jnum 9) rfl rfl
    rw [h]
    rfl

/-- An aborted client never re-enters the reconnect loop. -/
theorem reconnectAux_aborted (o a : Nat → Bool) (fuel : Nat) (st : ClientState)
    (h : st.aborted = true) : reconnectAux o a fuel st = ([], st) := by
  cases fuel with
  | zero => rfl
  | succ n => simp [reconnectAux, h]

/-- Unfolding of one reconnect attempt when the loop is live and within
budget. -/
theorem reconnectAux_go (o a : Nat → Bool) (fuel : Nat) (st : ClientState)
    (h1 : st.aborted = false) (h2 : st.autoReconnect = true)
    (h3 : st.reconnectAttempts < st.maxReconnectAttempts) :
    reconnectAux o a (fuel + 1) st =
      (REvent.wait (min (st.reconnectDelay * 2 ^ st.reconnectAttempts) st.maxReconnectDelay)
        :: REvent.connectAttempt (st.reconnectAttempts + 1)
        :: (if o (st.reconnectAttempts + 1) then [REvent.reconnected]
            else (reconnectAux o a fuel (stepState a st)).1),
       if o (st.reconnectAttempts + 1) then
         { stepState a st with reconnectAttempts := 0, isConnected := true }
       else (reconnectAux o a fuel (stepState a st)).2) := by
  rw [reconnectAux]
  simp only [h1, h2, Bool.not_true, Bool.or_false, Bool.false_eq_true, if_false,
    if_neg (not_le.mpr h3), Nat.add_sub_cancel]
  cases hok : o (st.reconnectAttempts + 1) <;> simp

/-- The reconnect loop never touches the subscription registry, the handler
map, or the configuration fields. -/
theorem reconnectAux_preserve (o a : Nat → Bool) :
    ∀ (fuel : Nat) (st : ClientState),
      (reconnectAux o a fuel st).2.eventHandlers = st.eventHandlers
      ∧ (reconnectAux o a fuel st).2.subscriptions = st.subscriptions
      ∧ (reconnectAux o a fuel st).2.maxReconnectAttempts = st.maxReconnectAttempts
      ∧ (reconnectAux o a fuel st).2.reconnectDelay = st.reconnectDelay
      ∧ (reconnectAux o a fuel st).2.maxReconnectDelay = st.maxReconnectDelay := by
  intro fuel
  induction fuel with
  | zero => intro st; simp [reconnectAux]
  | succ n ih =>
    intro st
    by_cases h1 : st.aborted
    · rw [reconnectAux_aborted o a _ st h1]
      simp
    · by_cases h2 : st.autoReconnect
      · by_cases h3 : st.reconnectAttempts < st.maxReconnectAttempts
        · rw [reconnectAux_go o a n st (by simpa using h1) (by simpa using h2) h3]
          cases hok : o (st.reconnectAttempts + 1) <;>
            simp only [hok, if_pos, Bool.false_eq_true, if_false] <;>
            rcases ih (stepState a st) with ⟨e1, e2, e3, e4, e5⟩ <;>
            simp_all [stepState] <;>
            split <;> simp
        · rw [reconnectAux]
          simp [h1, h2, not_lt.mp h3]
      · rw [reconnectAux]
        simp [h1, (by simpa using h2 : st.autoReconnect = false)]

/-- The reconnect loop never invokes an error handler. -/
theorem reconnectAux_no_errCall (o a : Nat → Bool) :
    ∀ (fuel : Nat) (st : ClientState), errCallsOf (reconnectAux o a fuel st).1 = [] := by
  intro fuel
  induction fuel with
  | zero => intro st; simp [reconnectAux, errCallsOf]
  | succ n ih =>
    intro st
    by_cases h1 : st.aborted
    · rw [reconnectAux_aborted o a _ st h1]; simp [errCallsOf]
    · by_cases h2 : st.autoReconnect
      · by_cases h3 : st.reconnectAttempts < st.maxReconnectAttempts
        · rw [reconnectAux_go o a n st (by simpa using h1) (by simpa using h2) h3]
          cases hok : o (st.reconnectAttempts + 1) <;>
            simp [errCallsOf] at ih ⊢ <;> exact ih (stepState a st)
        · rw [reconnectAux]
          simp [h1, h2, not_lt.mp h3, errCallsOf]
      · rw [reconnectAux]
        simp [h1, (by simpa using h2 : st.autoReconnect = false), errCallsOf]

/-- If `close()` is never invoked during a backoff wait, the loop never sets
the aborted flag. -/
theorem reconnectAux_not_aborted (o a : Nat → Bool) (ha : ∀ k, a k = false) :
    ∀ (fuel : Nat) (st : ClientState), st.aborted = false →
      (reconnectAux o a fuel st).2.aborted = false := by
  intro fuel
  induction fuel with
  | zero => intro st h; simpa [reconnectAux] using h
  | succ n ih =>
    intro st h
    by_cases h2 : st.autoReconnect
    · by_cases h3 : st.reconnectAttempts < st.maxReconnectAttempts
      · rw [reconnectAux_go o a n st h h2 h3]
        cases hok : o (st.reconnectAttempts + 1)
        · simp only [Bool.false_eq_true, if_false]
          exact ih (stepState a st) (by simp [stepState, ha, h])
        · simp [stepState, ha, h]
      · rw [reconnectAux]
        simp [h, h2, not_lt.mp h3]
    · rw [reconnectAux]
      simp [h, (by simpa using h2 : st.autoReconnect = false)]

/-- Projection lemmas for `stepState`. -/
theorem stepState_attempts (a : Nat → Bool) (st : ClientState) :
    (stepState a st).reconnectAttempts = st.reconnectAttempts + 1 := by
  unfold stepState; split <;> rfl

theorem stepState_max (a : Nat → Bool) (st : ClientState) :
    (stepState a st).maxReconnectAttempts = st.maxReconnectAttempts := by
  unfold stepState; split <;> rfl

theorem stepState_delay (a : Nat → Bool) (st : ClientState) :
    (stepState a st).reconnectDelay = st.reconnectDelay := by
  unfold stepState; split <;> rfl

theorem stepState_maxDelay (a : Nat → Bool) (st : ClientState) :
    (stepState a st).maxReconnectDelay = st.maxReconnectDelay := by
  unfold stepState; split <;> rfl

theorem stepState_auto (a : Nat → Bool) (st : ClientState) :
    (stepState a st).autoReconnect = st.autoReconnect := by
  unfold stepState; split <;> rfl

theorem stepState_aborted (a : Nat → Bool) (st : ClientState) :
    (stepState a st).aborted = (a (st.reconnectAttempts + 1) || st.aborted) := by
  unfold stepState
  by_cases h : a (st.reconnectAttempts + 1) <;> simp [h]

/-- Trace-observer cons lemmas (all definitional). -/
theorem waitsOf_nil : waitsOf [] = [] := rfl

theorem waitsOf_wait (m : Nat) (es : List REvent) :
    waitsOf (.wait m :: es) = m :: waitsOf es := rfl

theorem waitsOf_connect (k : Nat) (es : List REvent) :
    waitsOf (.connectAttempt k :: es) = waitsOf es := rfl

theorem waitsOf_reconnected (es : List REvent) :
    waitsOf (.reconnected :: es) = waitsOf es := rfl

theorem waitsOf_gaveUp (es : List REvent) :
    waitsOf (.gaveUp :: es) = waitsOf es := rfl

theorem countConnects_nil : countConnects [] = 0 := rfl

theorem countConnects_wait (m : Nat) (es : List REvent) :
    countConnects (.wait m :: es) = countConnects es := rfl

theorem countConnects_connect (k : Nat) (es : List REvent) :
    countConnects (.connectAttempt k :: es) = countConnects es + 1 := rfl

theorem countConnects_reconnected (es : List REvent) :
    countConnects (.reconnected :: es) = countConnects es := rfl

theorem countConnects_gaveUp (es : List REvent) :
    countConnects (.gaveUp :: es) = countConnects es := rfl

/-- The backoff delays emitted by the reconnect loop follow the exponential
formula: the delay at position `k` of the wait list (0-indexed, so the
(k+1)-st consecutive attempt) is `min(delay * 2 ^ (attempts₀ + k), maxDelay)`. -/
theorem reconnectAux_waits (o a : Nat → Bool) :
    ∀ (fuel : Nat) (st : ClientState) (k : Nat),
      k < (waitsOf (reconnectAux o a fuel st).1).length →
      (waitsOf (reconnectAux o a fuel st).1).get? k
        = some (min (st.reconnectDelay * 2 ^ (st.reconnectAttempts + k)) st.maxReconnectDelay) := by
  intro fuel
  induction fuel with
  | zero => intro st k hk; simp [reconnectAux, waitsOf] at hk
  | succ n ih =>
    intro st k hk
    by_cases h1 : st.aborted
    · rw [reconnectAux_aborted o a _ st h1] at hk
      simp [waitsOf] at hk
    · by_cases h2 : st.autoReconnect
      · by_cases h3 : st.reconnectAttempts < st.maxReconnectAttempts
        · have hrw := reconnectAux_go o a n st (by simpa using h1) (by simpa using h2) h3
          rw [hrw] at hk ⊢
          cases hok : o (st.reconnectAttempts + 1)
          · rw [hok] at hk
            simp only [Bool.false_eq_true, if_false, waitsOf_wait, waitsOf_connect] at hk ⊢
            cases k with
            | zero => simp
            | succ m =>
              simp only [List.length_cons, Nat.succ_lt_succ_iff] at hk
              simp only [List.get?_cons_succ]
              have hexp : st.reconnectAttempts + (m + 1)
                  = (stepState a st).reconnectAttempts + m := by
                rw [stepState_attempts]; omega
              rw [hexp, (stepState_delay a st).symm, (stepState_maxDelay a st).symm]
              exact ih (stepState a st) m hk
          · rw [hok] at hk
            simp only [eq_self_iff_true, if_true, waitsOf_wait, waitsOf_connect,
              waitsOf_reconnected, waitsOf_nil] at hk ⊢
            cases k with
            | zero => simp
            | succ m => simp at hk
        · rw [reconnectAux] at hk
          simp [(by simpa using h1 : st.aborted = false), h2, not_lt.mp h3, waitsOf] at hk
      · rw [reconnectAux] at hk
        simp [(by simpa using h1 : st.aborted = false),
          (by simpa using h2 : st.autoReconnect = false), waitsOf] at hk

/-- The reconnect loop performs at most `maxReconnectAttempts -
reconnectAttempts` connection attempts. -/
theorem reconnectAux_count_le (o a : Nat → Bool) :
    ∀ (fuel : Nat) (st : ClientState),
      countConnects (reconnectAux o a fuel st).1
        ≤ st.maxReconnectAttempts - st.reconnectAttempts := by
  intro fuel
  induction fuel with
  | zero => intro st; simp [reconnectAux, countConnects]
  | succ n ih =>
    intro st
    by_cases h1 : st.aborted
    · rw [reconnectAux_aborted o a _ st h1]; simp [countConnects]
    · by_cases h2 : st.autoReconnect
      · by_cases h3 : st.reconnectAttempts < st.maxReconnectAttempts
        · rw [reconnectAux_go o a n st (by simpa using h1) (by simpa using h2) h3]
          cases hok : o (st.reconnectAttempts + 1)
          · simp only [Bool.false_eq_true, if_false, countConnects_wait, countConnects_connect]
            have := ih (stepState a st)
            rw [stepState_attempts, stepState_max] at this
            omega
          · simp only [if_pos, countConnects_wait, countConnects_connect,
              countConnects_reconnected, countConnects_nil]
            omega
        · rw [reconnectAux]
          simp [(by simpa using h1 : st.aborted = false), h2, not_lt.mp h3, countConnects]
      · rw [reconnectAux]
        simp [(by simpa using h1 : st.aborted = false),
          (by simpa using h2 : st.autoReconnect = false), countConnects]

/-- When every reconnection attempt fails and `close()` never intervenes, the
loop exhausts the whole remaining budget: exactly `maxReconnectAttempts -
reconnectAttempts` attempts are performed. -/
theorem reconnectAux_count_exhaust (o a : Nat → Bool) (ho : ∀ k, o k = false)
    (ha : ∀ k, a k = false) :
    ∀ (fuel : Nat) (st : ClientState), st.aborted = false → st.autoReconnect = true →
      st.maxReconnectAttempts - st.reconnectAttempts < fuel →
      countConnects (reconnectAux o a fuel st).1
        = st.maxReconnectAttempts - st.reconnectAttempts := by
  intro fuel
  induction fuel with
  | zero => intro st _ _ hf; omega
  | succ n ih =>
    intro st h1 h2 hf
    by_cases h3 : st.reconnectAttempts < st.maxReconnectAttempts
    · rw [reconnectAux_go o a n st h1 h2 h3]
      rw [ho (st.reconnectAttempts + 1)]
      simp only [Bool.false_eq_true, if_false, countConnects_wait, countConnects_connect]
      have hab : (stepState a st).aborted = false := by
        rw [stepState_aborted, ha, h1]; rfl
      have hau : (stepState a st).autoReconnect = true := by
        rw [stepState_auto]; exact h2
      have := ih (stepState a st) hab hau
        (by rw [stepState_attempts, stepState_max]; omega)
      rw [stepState_attempts, stepState_max] at this
      omega
    · rw [reconnectAux]
      simp only [h1, h2, Bool.not_true, Bool.or_false, Bool.false_eq_true, if_false,
        if_pos (not_lt.mp h3), countConnects_gaveUp, countConnects_nil]
      omega

theorem countConnects_errCall (i : Int) (es : List REvent) :
    countConnects (.errCall i :: es) = countConnects es := rfl

theorem countConnects_append (l1 l2 : List REvent) :
    countConnects (l1 ++ l2) = countConnects l1 + countConnects l2 := by
  simp [countConnects, List.filter_append]

theorem countConnects_errList (l : List (Int × HandlerSet)) :
    countConnects (l.map (fun e => REvent.errCall e.1)) = 0 := by
  induction l with
  | nil => rfl
  | cons x xs ih => rw [List.map_cons, countConnects_errCall]; exact ih

theorem errCallsOf_append (l1 l2 : List REvent) :
    errCallsOf (l1 ++ l2) = errCallsOf l1 ++ errCallsOf l2 := by
  simp [errCallsOf, List.filterMap_append]

theorem errCallsOf_errCall (i : Int) (es : List REvent) :
    errCallsOf (.errCall i :: es) = i :: errCallsOf es := rfl

theorem errCallsOf_errList (l : List (Int × HandlerSet)) :
    errCallsOf (l.map (fun e => REvent.errCall e.1)) = l.map (fun e => e.1) := by
  induction l with
  | nil => rfl
  | cons x xs ih =>
    rw [List.map_cons, List.map_cons, errCallsOf_errCall, ih]

theorem countConnects_errIf (b : Bool) (l : List (Int × HandlerSet)) :
    countConnects (if b then (l.filter (fun e => e.2.hasErr)).map
      (fun e => REvent.errCall e.1) else []) = 0 := by
  cases b
  · rfl
  · exact countConnects_errList _

/-- When the client is live (not aborted, auto-reconnect on), stream
termination runs the reconnect loop and then the error-handler loop. -/
theorem streamEnd_live_fst (e : Bool) (o a : Nat → Bool) (st : ClientState)
    (ha : st.aborted = false) (hau : st.autoReconnect = true) :
    (streamEnd e o a st).1 =
      (attemptReconnect o a { st with isConnected := false }).1 ++
        (if e && !(attemptReconnect o a { st with isConnected := false }).2.aborted
         then ((attemptReconnect o a { st with isConnected := false }).2.eventHandlers.filter
            (fun x => x.2.hasErr)).map (fun x => REvent.errCall x.1)
         else []) := by
  unfold streamEnd
  simp [ha, hau]

/-- When the client is aborted or auto-reconnect is off, stream termination
skips the reconnect loop. -/
theorem streamEnd_dead_fst (e : Bool) (o a : Nat → Bool) (st : ClientState)
    (h : st.aborted = true ∨ st.autoReconnect = false) :
    (streamEnd e o a st).1 =
      (if e && !st.aborted
       then (st.eventHandlers.filter (fun x => x.2.hasErr)).map (fun x => REvent.errCall x.1)
       else []) := by
  unfold streamEnd
  rcases h with h | h <;> simp [h]

/-- Claim C4 (confirmed): for every configuration and every position `k` in
the backoff wait sequence of one reconnection episode started with a zero
attempt counter, the delay waited before the (k+1)-st consecutive
reconnection attempt equals `min(reconnectDelay * 2 ^ k, maxReconnectDelay)`
(in the claim's 1-based numbering: the k-th delay is
`min(d * 2^(k-1), M)`). -/
theorem c4_backoff (connectOk closedDuringWait : Nat → Bool) (st : ClientState)
    (h0 : st.reconnectAttempts = 0) (k : Nat)
    (hk : k < (waitsOf (attemptReconnect connectOk closedDuringWait st).1).length) :
    (waitsOf (attemptReconnect connectOk closedDuringWait st).1).get? k
      = some (min (st.reconnectDelay * 2 ^ k) st.maxReconnectDelay) := by
  unfold attemptReconnect at hk ⊢
  have h := reconnectAux_waits connectOk closedDuringWait _ st k hk
  rw [h, h0]
  simp

/-- Witness for C4 at the spec's own scenario (`d = 5`, `M = 1000`): the third
delay (index 2) is `min(5 * 2^2, 1000) = 20`. -/
theorem c4_backoff_witness :
    (waitsOf (attemptReconnect (fun _ => false) (fun _ => false) stR).1).get? 2
        = some (min (stR.reconnectDelay * 2 ^ 2) stR.maxReconnectDelay)
    ∧ min (stR.reconnectDelay * 2 ^ 2) stR.maxReconnectDelay = 20 :=
  ⟨c4_backoff (fun _ => false) (fun _ => false) stR rfl 2 (by decide), by decide⟩

/-- Counterexample for claim C5: with `close()` invoked while the first
backoff wait is in flight (`closedDuringWait 1 = true`), the woken loop
still performs the reconnection attempt — the trace contains
`connectAttempt 1` after the wait, although the aborted flag was already
set; the claim says waking with the aborted flag set stops the reconnect
before regenerating the channel identity and reconnecting. -/
theorem c5_counterexample :
    ((fun k => k == 1) : Nat → Bool) 1 = true
    ∧ (attemptReconnect (fun _ => false) (fun k => k == 1) stR).1
        = [REvent.wait 5, REvent.connectAttempt 1]
    ∧ (attemptReconnect (fun _ => false) (fun k => k == 1) stR).2.aborted = true :=
  ⟨rfl, rfl, rfl⟩

/-- Claim C5 (amended): `close()` sets the terminal aborted state, and any
reconnect-loop entry that begins after `close()` performs no wait and no
reconnection attempt; however `close()` during an in-flight backoff wait
does not cancel that wait's attempt: the loop wakes, regenerates the
channel identity and performs exactly that one reconnection attempt despite
the aborted flag, and only the next loop entry stops. -/
theorem c5_amended (connectOk closedDuringWait : Nat → Bool) (st : ClientState) :
    (st.aborted = true → attemptReconnect connectOk closedDuringWait st = ([], st))
    ∧ (st.aborted = false → st.autoReconnect = true →
       st.reconnectAttempts < st.maxReconnectAttempts →
       closedDuringWait (st.reconnectAttempts + 1) = true →
       ((attemptReconnect connectOk closedDuringWait st).1 =
          REvent.wait (min (st.reconnectDelay * 2 ^ st.reconnectAttempts) st.maxReconnectDelay)
            :: REvent.connectAttempt (st.reconnectAttempts + 1)
            :: (if connectOk (st.reconnectAttempts + 1) then [REvent.reconnected] else [])
        ∧ (attemptReconnect connectOk closedDuringWait st).2.aborted = true)) := by
  constructor
  · intro h
    exact reconnectAux_aborted connectOk closedDuringWait _ st h
  · intro h1 h2 h3 hcl
    unfold attemptReconnect
    rw [reconnectAux_go connectOk closedDuringWait _ st h1 h2 h3]
    have hab : (stepState closedDuringWait st).aborted = true := by
      rw [stepState_aborted, hcl]; rfl
    rw [reconnectAux_aborted connectOk closedDuringWait _ _ hab]
    cases hok : connectOk (st.reconnectAttempts + 1) <;> simp [hab]

/-- Witness for the amended C5 at concrete input: `close()` during the first
wait of the `d=5, M=1000, max=3` scenario yields exactly one post-close
attempt and a final aborted state. -/
theorem c5_amended_witness :
    (attemptReconnect (fun _ => false) (fun k => k == 1) stR).1
        = [REvent.wait 5, REvent.connectAttempt 1]
    ∧ (attemptReconnect (fun _ => false) (fun k => k == 1) stR).2.aborted = true := by
  have h := (c5_amended (fun _ => false) (fun k => k == 1) stR).2 rfl rfl (by decide) rfl
  exact ⟨h.1, h.2⟩

/-- Counterexample for claim C6: a stream that terminates cleanly (no error)
with `autoReconnect = true`, `maxReconnectAttempts = 3` and a registered
subscription carrying an `err` handler exhausts all 3 reconnection
attempts, yet no error handler is ever invoked — the claim says that once
the attempt budget is exhausted the failure is reported to each registered
subscription's error handler exactly once. -/
theorem c6_counterexample :
    stErr.maxReconnectAttempts = 3
    ∧ stErr.eventHandlers = [(1, hsAll)]
    ∧ (streamEnd false (fun _ => false) (fun _ => false) stErr).1 =
        [REvent.wait 5, REvent.connectAttempt 1, REvent.wait 10, REvent.connectAttempt 2,
         REvent.wait 20, REvent.connectAttempt 3, REvent.gaveUp]
    ∧ countConnects (streamEnd false (fun _ => false) (fun _ => false) stErr).1 = 3
    ∧ errCallsOf (streamEnd false (fun _ => false) (fun _ => false) stErr).1 = [] :=
  ⟨rfl, rfl, rfl, rfl, rfl⟩

/-- Claim C6 (amended): when the stream terminates with `autoReconnect=true`
and `maxReconnectAttempts = N` (fresh attempt counter), at most `N`
reconnection attempts are performed; when every attempt fails and `close()`
never intervenes, exactly `N` attempts are performed, and the terminal
failure is then reported by invoking each registered subscription's error
handler exactly once (per-subscription, in registry order) — but only if
the stream had terminated with an error; after a clean end-of-stream the
exhaustion is silent and no error handler is invoked. -/
theorem c6_amended (st : ClientState) (connectOk closedDuringWait : Nat → Bool)
    (endedWithError : Bool) (h0 : st.reconnectAttempts = 0) :
    countConnects (streamEnd endedWithError connectOk closedDuringWait st).1
      ≤ st.maxReconnectAttempts
    ∧ (st.aborted = false → st.autoReconnect = true →
       (∀ k, connectOk k = false) → (∀ k, closedDuringWait k = false) →
       countConnects (streamEnd endedWithError connectOk closedDuringWait st).1
           = st.maxReconnectAttempts
       ∧ errCallsOf (streamEnd endedWithError connectOk closedDuringWait st).1
           = (if endedWithError then
                (st.eventHandlers.filter (fun pr => pr.2.hasErr)).map (fun pr => pr.1)
              else [])) := by
  constructor
  · by_cases ha : st.aborted
    · rw [streamEnd_dead_fst endedWithError connectOk closedDuringWait st (Or.inl ha)]
      rw [countConnects_errIf]
      exact Nat.zero_le _
    · by_cases hau : st.autoReconnect
      · rw [streamEnd_live_fst endedWithError connectOk closedDuringWait st
          (by simpa using ha) hau]
        rw [countConnects_append, countConnects_errIf]
        unfold attemptReconnect
        have h1 := reconnectAux_count_le connectOk closedDuringWait
          (({ st with isConnected := false } : ClientState).maxReconnectAttempts
            - ({ st with isConnected := false } : ClientState).reconnectAttempts + 1)
          { st with isConnected := false }
        have h2 : ({ st with isConnected := false } : ClientState).maxReconnectAttempts
            = st.maxReconnectAttempts := rfl
        have h3 : ({ st with isConnected := false } : ClientState).reconnectAttempts
            = st.reconnectAttempts := rfl
        omega
      · rw [streamEnd_dead_fst endedWithError connectOk closedDuringWait st
          (Or.inr (by simpa using hau))]
        rw [countConnects_errIf]
        exact Nat.zero_le _
  · intro ha hau ho hacl
    rw [streamEnd_live_fst endedWithError connectOk closedDuringWait st ha hau]
    set st' : ClientState := { st with isConnected := false } with hst'
    have hza : st'.aborted = false := ha
    have hzu : st'.autoReconnect = true := hau
    have hz0 : st'.reconnectAttempts = 0 := h0
    have hab : (attemptReconnect connectOk closedDuringWait st').2.aborted = false := by
      unfold attemptReconnect
      exact reconnectAux_not_aborted connectOk closedDuringWait hacl _ st' hza
    have hhd : (attemptReconnect connectOk closedDuringWait st').2.eventHandlers
        = st.eventHandlers := by
      unfold attemptReconnect
      exact (reconnectAux_preserve connectOk closedDuringWait _ st').1
    have hcount : countConnects (attemptReconnect connectOk closedDuringWait st').1
        = st.maxReconnectAttempts := by
      unfold attemptReconnect
      have h4 := reconnectAux_count_exhaust connectOk closedDuringWait ho hacl
        (st'.maxReconnectAttempts - st'.reconnectAttempts + 1) st' hza hzu (by omega)
      rw [h4]
      have h5 : st'.maxReconnectAttempts = st.maxReconnectAttempts := rfl
      omega
    have hnoerr : errCallsOf (attemptReconnect connectOk closedDuringWait st').1 = [] := by
      unfold attemptReconnect
      exact reconnectAux_no_errCall connectOk closedDuringWait _ st'
    constructor
    · rw [countConnects_append, countConnects_errIf, hcount]
      omega
    · rw [errCallsOf_append, hnoerr, hab, hhd]
      cases endedWithError
      · rfl
      · simp [errCallsOf_errList]

/-- Witness for the amended C6 at concrete input: the error-terminated
`d=5, M=1000, max=3` scenario performs exactly 3 attempts and then invokes
subscription 1's error handler exactly once. -/
theorem c6_amended_witness :
    countConnects (streamEnd true (fun _ => false) (fun _ => false) stErr).1 = 3
    ∧ errCallsOf (streamEnd true (fun _ => false) (fun _ => false) stErr).1 = [1] := by
  have h := (c6_amended stErr (fun _ => false) (fun _ => false) true rfl).2 rfl rfl
    (fun _ => rfl) (fun _ => rfl)
  exact ⟨h.1, h.2⟩

theorem idsFrom_chain (n : Nat) : ∀ (s : Int), List.Chain' (· < ·) (idsFrom s n) := by
  induction n with
  | zero => intro s; simp [idsFrom]
  | succ m ih =>
    intro s
    cases m with
    | zero => simp [idsFrom]
    | succ m2 =>
      rw [idsFrom, idsFrom]
      refine List.Chain'.cons (by omega) ?_
      rw [← idsFrom]
      exact ih (s + 1)

theorem idsFrom_ge (n : Nat) : ∀ (s : Int) (i : Int), i ∈ idsFrom s n → s ≤ i := by
  induction n with
  | zero => intro s i h; simp [idsFrom] at h
  | succ m ih =>
    intro s i h
    rw [idsFrom] at h
    rcases List.mem_cons.mp h with h | h
    · omega
    · have := ih (s + 1) i h
      omega

theorem idsFrom_nodup (n : Nat) (s : Int) : (idsFrom s n).Nodup := by
  have hp : List.Pairwise (· < ·) (idsFrom s n) :=
    (List.chain'_iff_pairwise).mp (idsFrom_chain n s)
  exact hp.imp (fun h => ne_of_lt h)

/-- The ids returned by a run of `subscribe` calls are consecutive integers
starting just above the current registry size, and each call appends one
entry. -/
theorem subscribeAll_ids :
    ∀ (specs : List (String × String × HandlerSet)) (st : ClientState),
      (subscribeAll st specs).2 = idsFrom ((st.subscriptions.length : Int) + 1) specs.length
      ∧ (subscribeAll st specs).1.subscriptions.length
          = st.subscriptions.length + specs.length := by
  intro specs
  induction specs with
  | nil => intro st; simp [subscribeAll, idsFrom]
  | cons spec specs ih =>
    intro st
    have hlen1 : (subscribe st spec.1 spec.2.1 spec.2.2).1.subscriptions.length
        = st.subscriptions.length + 1 := by
      simp [subscribe]
    have hid : (subscribe st spec.1 spec.2.1 spec.2.2).2
        = (st.subscriptions.length : Int) + 1 := rfl
    have h2 := ih (subscribe st spec.1 spec.2.1 spec.2.2).1
    constructor
    · show (subscribe st spec.1 spec.2.1 spec.2.2).2
            :: (subscribeAll (subscribe st spec.1 spec.2.1 spec.2.2).1 specs).2
        = idsFrom ((st.subscriptions.length : Int) + 1) (spec :: specs).length
      simp only [List.length_cons]
      rw [idsFrom]
      rw [h2.1, hlen1, hid]
      push_cast
      rfl
    · show (subscribeAll (subscribe st spec.1 spec.2.1 spec.2.2).1 specs).1.subscriptions.length
        = st.subscriptions.length + (spec :: specs).length
      simp only [List.length_cons]
      rw [h2.2, hlen1]
      omega

/-- `connect` never changes the stored subscription array (on success or on
failure): the same subscriptions, with their original ids, survive into
every reconnection. -/
theorem connect_subs (st : ClientState) (net : Nat → Except String Nat) :
    (connect st net).2.1.subscriptions = st.subscriptions := by
  unfold connect
  cases net 0 with
  | error e => rfl
  | ok s1 =>
    simp only
    split
    · rfl
    · cases net 1 with
      | error e => rfl
      | ok s2 =>
        simp only
        split
        · rfl
        · cases net 2 with
          | error e => rfl
          | ok s3 =>
            simp only
            split
            · rfl
            · rfl

/-- The first request `connect` sends is always the channel-creation PUT
whose body is the full current subscription batch. -/
theorem connect_first_req (st : ClientState) (net : Nat → Except String Nat) :
    (connect st net).2.2.head?
      = some (NetReq.putBatch (st.subscriptions.map toSubscribeAct)) := by
  unfold connect
  cases net 0 with
  | error e => rfl
  | ok s1 =>
    simp only
    split
    · rfl
    · cases net 1 with
      | error e => rfl
      | ok s2 =>
        simp only
        split
        · rfl
        · cases net 2 with
          | error e => rfl
          | ok s3 =>
            simp only
            split
            · rfl
            · rfl

/-- Claim C7 (confirmed): for a fresh client, the subscription ids returned by
consecutive `subscribe` calls are exactly `1, 2, ..., n` — strictly
increasing, unique, all positive — and they are not regenerated across
reconnects: `connect` (which every reconnection re-runs) leaves the stored
subscription array untouched and replays it, ids included, as the
channel-creation batch of the new channel. -/
theorem c7_ids (ship : String) (autoRe : Bool) (mA dly mD : Nat)
    (specs : List (String × String × HandlerSet)) :
    (subscribeAll (initClient ship autoRe mA dly mD) specs).2 = idsFrom 1 specs.length
    ∧ List.Chain' (· < ·) ((subscribeAll (initClient ship autoRe mA dly mD) specs).2)
    ∧ ((subscribeAll (initClient ship autoRe mA dly mD) specs).2).Nodup
    ∧ (∀ i ∈ (subscribeAll (initClient ship autoRe mA dly mD) specs).2, 1 ≤ i)
    ∧ (∀ (st2 : ClientState) (net : Nat → Except String Nat),
        (connect st2 net).2.1.subscriptions = st2.subscriptions)
    ∧ (∀ (st2 : ClientState) (net : Nat → Except String Nat),
        (connect st2 net).2.2.head?
          = some (NetReq.putBatch (st2.subscriptions.map toSubscribeAct))) := by
  have hids := (subscribeAll_ids specs (initClient ship autoRe mA dly mD)).1
  have hzero : ((initClient ship autoRe mA dly mD).subscriptions.length : Int) + 1 = 1 := by
    simp [initClient]
  rw [hzero] at hids
  refine ⟨hids, ?_, ?_, ?_, connect_subs, connect_first_req⟩
  · rw [hids]; exact idsFrom_chain specs.length 1
  · rw [hids]; exact idsFrom_nodup specs.length 1
  · rw [hids]; exact idsFrom_ge specs.length 1

/-- Witness for C7 at concrete input: two registrations return ids 1, 2. -/
theorem c7_ids_witness :
    (subscribeAll stZ [("chat", "/dm/x", hsAll), ("channels", "/c/y", hsAll)]).2 = [1, 2]
    ∧ (connect (subscribeAll stZ
        [("chat", "/dm/x", hsAll), ("channels", "/c/y", hsAll)]).1 netOk).2.1.subscriptions
      = (subscribeAll stZ [("chat", "/dm/x", hsAll), ("channels", "/c/y", hsAll)]).1.subscriptions := by
  have h := c7_ids "zod" true 10 1000 30000
    [("chat", "/dm/x", hsAll), ("channels", "/c/y", hsAll)]
  exact ⟨h.1, h.2.2.2.2.1 _ netOk⟩

/-- Claim C8 (confirmed): `close()` sends the unsubscribe batch covering every
currently registered subscription as its first request, then (whenever that
first request does not reject) deletes the channel, and it never throws:
its own error component is `none` for every oracle of network outcomes —
every failure of the teardown requests is swallowed by the `catch`.  The
aborted flag is set unconditionally. -/
theorem c8_close_safe (st : ClientState) (net : Nat → Except String Nat) :
    (close st net).2.2 = none
    ∧ (close st net).1.aborted = true
    ∧ (close st net).2.1.head? = some (NetReq.putBatch (unsubBatch st.subscriptions))
    ∧ unsubBatch st.subscriptions
        = st.subscriptions.map (fun s => ChanAction.unsubscribeAct s.id s.id)
    ∧ (∀ s, net 0 = Except.ok s →
        (close st net).2.1
          = [NetReq.putBatch (unsubBatch st.subscriptions), NetReq.deleteChannel]) := by
  refine ⟨rfl, rfl, ?_, rfl, ?_⟩
  · unfold close closeBody
    cases net 0 with
    | error e => rfl
    | ok s1 =>
      simp only
      cases net 1 with
      | error e => rfl
      | ok s2 => rfl
  · intro s hs
    unfold close closeBody
    rw [hs]
    simp only
    cases net 1 with
    | error e => rfl
    | ok s2 => rfl

/-- Witness for C8 at concrete input: closing a client with one registered
subscription, on a succeeding network, sends the one-element unsubscribe
batch and then the channel delete, throwing nothing. -/
theorem c8_close_safe_witness :
    (close (subscribe stZ "chat" "/dm/x" hsAll).1 netOk).2.2 = none
    ∧ (close (subscribe stZ "chat" "/dm/x" hsAll).1 netOk).2.1
        = [NetReq.putBatch [ChanAction.unsubscribeAct 1 1], NetReq.deleteChannel] := by
  have h := c8_close_safe (subscribe stZ "chat" "/dm/x" hsAll).1 netOk
  exact ⟨h.1, h.2.2.2.2 204 rfl⟩

theorem mentionsSub_unsub (i a b : Int) :
    mentionsSub i (ChanAction.unsubscribeAct a b) = false := rfl

theorem mentionsSub_poke (i : Int) (sh ap mk js : String) :
    mentionsSub i (ChanAction.pokeAct sh ap mk js) = false := rfl

/-- An unsubscribe batch never carries a subscribe action. -/
theorem unsubBatch_no_mention (i : Int) (subs : List SubEntry) :
    (unsubBatch subs).any (mentionsSub i) = false := by
  induction subs with
  | nil => rfl
  | cons x xs ih =>
    simp only [unsubBatch, List.map_cons, List.any_cons, mentionsSub_unsub,
      Bool.false_or] at ih ⊢
    exact ih

/-- Every request `connect` issues is the channel-creation batch, the
activation poke, or the stream GET. -/
theorem connect_req_mem (st : ClientState) (net : Nat → Except String Nat) (r : NetReq)
    (h : r ∈ (connect st net).2.2) :
    r = NetReq.putBatch (st.subscriptions.map toSubscribeAct)
    ∨ r = NetReq.putBatch [ChanAction.pokeAct st.ship "hood" "helm-hi" "Opening API channel"]
    ∨ r = NetReq.getStream := by
  unfold connect at h
  cases hn0 : net 0 with
  | error e => rw [hn0] at h; simp at h; exact Or.inl h
  | ok s1 =>
    rw [hn0] at h
    simp only at h
    split at h
    · simp at h; exact Or.inl h
    · cases hn1 : net 1 with
      | error e =>
        rw [hn1] at h; simp at h
        rcases h with h | h
        exacts [Or.inl h, Or.inr (Or.inl h)]
      | ok s2 =>
        rw [hn1] at h
        simp only at h
        split at h
        · simp at h
          rcases h with h | h
          exacts [Or.inl h, Or.inr (Or.inl h)]
        · cases hn2 : net 2 with
          | error e =>
            rw [hn2] at h; simp at h
            rcases h with h | h | h
            exacts [Or.inl h, Or.inr (Or.inl h), Or.inr (Or.inr h)]
          | ok s3 =>
            rw [hn2] at h
            simp only at h
            split at h
            · simp at h
              rcases h with h | h | h
              exacts [Or.inl h, Or.inr (Or.inl h), Or.inr (Or.inr h)]
            · simp at h
              rcases h with h | h | h
              exacts [Or.inl h, Or.inr (Or.inl h), Or.inr (Or.inr h)]

/-- Every request `close` issues is the unsubscribe batch or the channel
delete. -/
theorem close_req_mem (st : ClientState) (net : Nat → Except String Nat) (r : NetReq)
    (h : r ∈ (close st net).2.1) :
    r = NetReq.putBatch (unsubBatch st.subscriptions) ∨ r = NetReq.deleteChannel := by
  unfold close closeBody at h
  cases hn0 : net 0 with
  | error e => rw [hn0] at h; simp at h; exact Or.inl h
  | ok s1 =>
    rw [hn0] at h
    simp only at h
    cases hn1 : net 1 with
    | error e => rw [hn1] at h; simp at h; exact h
    | ok s2 => rw [hn1] at h; simp at h; exact h

/-- Across any session, the only requests carrying a subscribe action are
channel-creation batches (full registry serialisations): there is no other
code path that transmits a subscription. -/
theorem session_sub_reqs :
    ∀ (ops : List SessionOp) (st : ClientState) (r : NetReq),
      r ∈ (runSession st ops).2 → (∃ i, reqMentionsSub i r = true) →
      ∃ subs : List SubEntry, r = NetReq.putBatch (subs.map toSubscribeAct) := by
  intro ops
  induction ops with
  | nil => intro st r h _; simp [runSession] at h
  | cons op ops ih =>
    intro st r h hm
    simp only [runSession] at h
    rcases List.mem_append.mp h with h | h
    · cases op with
      | opSubscribe app path hs => simp [runStep] at h
      | opConnect net =>
        have hr := connect_req_mem st net r (by simpa [runStep] using h)
        rcases hr with hr | hr | hr
        · exact ⟨st.subscriptions, hr⟩
        · exfalso
          rcases hm with ⟨i, hi⟩
          rw [hr] at hi
          simp [reqMentionsSub, mentionsSub_poke] at hi
        · exfalso
          rcases hm with ⟨i, hi⟩
          rw [hr] at hi
          simp [reqMentionsSub] at hi
      | opClose net =>
        have hr := close_req_mem st net r (by simpa [runStep] using h)
        rcases hr with hr | hr
        · exfalso
          rcases hm with ⟨i, hi⟩
          rw [hr] at hi
          simp only [reqMentionsSub] at hi
          rw [unsubBatch_no_mention] at hi
          exact Bool.false_ne_true hi
        · exfalso
          rcases hm with ⟨i, hi⟩
          rw [hr] at hi
          simp [reqMentionsSub] at hi
    · exact ih (runStep st op).1 r h hm

/-- Counterexample for claim C9: in a session that registers subscription 1,
connects (making the channel live), and then registers subscription 2 on
the live channel, the complete request trace contains no request mentioning
subscription 2 at all — no incremental subscribe action exists in the code;
the claim says a subscription added to an already-live channel is
transmitted via an explicit incremental subscribe action. -/
theorem c9_counterexample :
    (runSession stZ ops9).1.subscriptions.map SubEntry.id = [1, 2]
    ∧ (runSession stZ ops9).1.isConnected = true
    ∧ (runSession stZ ops9).2 =
        [NetReq.putBatch [ChanAction.subscribeAct 1 "zod" "chat" "/dm/x"],
         NetReq.putBatch [ChanAction.pokeAct "zod" "hood" "helm-hi" "Opening API channel"],
         NetReq.getStream]
    ∧ (runSession stZ ops9).2.filter (reqMentionsSub 2) = [] :=
  ⟨rfl, rfl, rfl, rfl⟩

/-- Claim C9 (amended): `register`/`subscribe` itself transmits nothing over
the network, and a registered subscription is transmitted to the ship only
inside a `createChannel` batch — the full registry serialisation sent by
`connect`, whether at first connect or at a reconnect.  There is no
incremental subscribe code path: across any session, every transmitted
subscribe action sits in a channel-creation batch, and a subscription added
after the channel is live is transmitted only by the next `connect`. -/
theorem c9_amended :
    (∀ (st : ClientState) (app path : String) (hs : HandlerSet),
        (runStep st (.opSubscribe app path hs)).2 = [])
    ∧ (∀ (st : ClientState) (net : Nat → Except String Nat),
        (connect st net).2.2.head?
          = some (NetReq.putBatch (st.subscriptions.map toSubscribeAct)))
    ∧ (∀ (st : ClientState) (app path : String) (hs : HandlerSet),
        ChanAction.subscribeAct ((st.subscriptions.length : Int) + 1) st.ship app path
          ∈ (subscribe st app path hs).1.subscriptions.map toSubscribeAct)
    ∧ (∀ (ops : List SessionOp) (st : ClientState) (r : NetReq),
        r ∈ (runSession st ops).2 → (∃ i, reqMentionsSub i r = true) →
        ∃ subs : List SubEntry, r = NetReq.putBatch (subs.map toSubscribeAct)) := by
  refine ⟨fun st app path hs => rfl, connect_first_req, ?_, session_sub_reqs⟩
  intro st app path hs
  have hmem : (⟨(st.subscriptions.length : Int) + 1, st.ship, app, path⟩ : SubEntry)
      ∈ (subscribe st app path hs).1.subscriptions := by
    simp [subscribe]
  exact List.mem_map_of_mem toSubscribeAct hmem

/-- Witness for the amended C9 at concrete inputs: registration transmits
nothing; the only request of the session that carries subscription 1's
subscribe action is the channel-creation batch. -/
theorem c9_amended_witness :
    (runStep stTwo (.opSubscribe "chat" "/dm/z" hsAll)).2 = []
    ∧ (connect stZ netOk).2.2.head? = some (NetReq.putBatch [])
    ∧ (∃ subs : List SubEntry,
        NetReq.putBatch [ChanAction.subscribeAct 1 "zod" "chat" "/dm/x"]
          = NetReq.putBatch (subs.map toSubscribeAct)) := by
  have h := c9_amended
  refine ⟨h.1 stTwo "chat" "/dm/z" hsAll, h.2.1 stZ netOk, ?_⟩
  exact h.2.2.2 ops9 stZ _ (by decide) ⟨1, rfl⟩

/-- A successful delimiter split accounts for the whole buffer: the frame,
the two delimiter characters, and the remainder. -/
theorem splitOnce_length :
    ∀ (x a b : List Char), splitOnce x = some (a, b) →
      x.length = a.length + 2 + b.length := by
  intro x
  induction x with
  | nil => intro a b h; simp [splitOnce] at h
  | cons c rest ih =>
    intro a b h
    cases rest with
    | nil => simp [splitOnce] at h
    | cons d rest2 =>
      rw [splitOnce] at h
      split at h
      · injection h with h2
        injection h2 with ha hb
        subst ha
        subst hb
        simp
        omega
      · cases hs : splitOnce (d :: rest2) with
        | none => rw [hs] at h; simp at h
        | some p =>
          rw [hs] at h
          simp only at h
          injection h with h2
          injection h2 with ha hb
          subst ha
          subst hb
          have := ih p.1 p.2 (by rw [hs])
          simp at this ⊢
          omega

/-- `extractAux` ignores extra fuel beyond the buffer length. -/
theorem extractAux_congr :
    ∀ (f1 : Nat) (f2 : Nat) (buf : List Char), buf.length ≤ f1 → buf.length ≤ f2 →
      extractAux f1 buf = extractAux f2 buf := by
  intro f1
  induction f1 with
  | zero =>
    intro f2 buf h1 _
    have hb : buf = [] := List.length_eq_zero.mp (Nat.le_zero.mp h1)
    subst hb
    cases f2 with
    | zero => rfl
    | succ m => rfl
  | succ n ih =>
    intro f2 buf h1 h2
    cases f2 with
    | zero =>
      have hb : buf = [] := List.length_eq_zero.mp (Nat.le_zero.mp h2)
      subst hb
      rfl
    | succ m =>
      rw [extractAux, extractAux]
      cases hs : splitOnce buf with
      | none => rfl
      | some p =>
        simp only
        have hlen := splitOnce_length buf p.1 p.2 (by rw [hs])
        have hrec := ih m p.2 (by omega) (by omega)
        rw [hrec]

theorem extractAux_none (fuel : Nat) (buf : List Char) (h : splitOnce buf = none) :
    extractAux fuel buf = ([], buf) := by
  cases fuel with
  | zero => rfl
  | succ n => rw [extractAux, h]

theorem extractFrames_none (buf : List Char) (h : splitOnce buf = none) :
    extractFrames buf = ([], buf) :=
  extractAux_none buf.length buf h

/-- Unfolding `extractFrames` by one delimiter split. -/
theorem extractFrames_some (buf a b : List Char) (h : splitOnce buf = some (a, b)) :
    extractFrames buf = (a :: (extractFrames b).1, (extractFrames b).2) := by
  have hlen := splitOnce_length buf a b h
  unfold extractFrames
  cases hl : buf.length with
  | zero =>
    exfalso
    omega
  | succ n =>
    rw [extractAux, h]
    simp only
    have : extractAux n b = extractAux b.length b := extractAux_congr n b.length b (by omega) le_rfl
    rw [this]

/-- The remainder kept by the extraction loop never contains a delimiter. -/
theorem extractFrames_rem :
    ∀ (fuel : Nat) (buf : List Char), buf.length ≤ fuel →
      splitOnce ((extractAux fuel buf).2) = none := by
  intro fuel
  induction fuel with
  | zero =>
    intro buf h
    have hb : buf = [] := List.length_eq_zero.mp (Nat.le_zero.mp h)
    subst hb
    rfl
  | succ n ih =>
    intro buf h
    rw [extractAux]
    cases hs : splitOnce buf with
    | none => simpa using hs
    | some p =>
      simp only
      have hlen := splitOnce_length buf p.1 p.2 (by rw [hs])
      exact ih p.2 (by omega)

/-- A found delimiter survives the append of more bytes, with the remainder
extended. -/
theorem splitOnce_append_some :
    ∀ (x a b y : List Char), splitOnce x = some (a, b) →
      splitOnce (x ++ y) = some (a, b ++ y) := by
  intro x
  induction x with
  | nil => intro a b y h; simp [splitOnce] at h
  | cons c rest ih =>
    intro a b y h
    cases rest with
    | nil => simp [splitOnce] at h
    | cons d rest2 =>
      rw [splitOnce] at h
      show splitOnce (c :: d :: (rest2 ++ y)) = _
      rw [splitOnce]
      split at h
      · injection h with h2
        injection h2 with ha hb
        subst ha
        subst hb
        rw [if_pos (by assumption)]
      · rw [if_neg (by assumption)]
        cases hs : splitOnce (d :: rest2) with
        | none => rw [hs] at h; simp at h
        | some p =>
          rw [hs] at h
          simp only at h
          injection h with h2
          injection h2 with ha hb
          subst ha
          subst hb
          have h6 := ih p.1 p.2 y (by rw [hs])
          have h5 : splitOnce (d :: (rest2 ++ y)) = some (p.1, p.2 ++ y) := h6
          rw [h5]

/-- The streaming decomposition law: extracting from `x ++ y` is extracting
from `x`, then extracting from the retained remainder with `y` appended. -/
theorem extractFrames_append (y : List Char) :
    ∀ (x : List Char),
      extractFrames (x ++ y)
        = ((extractFrames x).1 ++ (extractFrames ((extractFrames x).2 ++ y)).1,
           (extractFrames ((extractFrames x).2 ++ y)).2) := by
  have hmain : ∀ (n : Nat) (x : List Char), x.length = n →
      extractFrames (x ++ y)
        = ((extractFrames x).1 ++ (extractFrames ((extractFrames x).2 ++ y)).1,
           (extractFrames ((extractFrames x).2 ++ y)).2) := by
    intro n
    induction n using Nat.strong_induction_on with
    | _ n ihn =>
      intro x hx
      cases hs : splitOnce x with
      | none =>
        rw [extractFrames_none x hs]
        simp
      | some p =>
        have hs2 : splitOnce x = some (p.1, p.2) := by rw [hs]
        have hlen := splitOnce_length x p.1 p.2 hs2
        have h2 := extractFrames_some x p.1 p.2 hs2
        have h3 := splitOnce_append_some x p.1 p.2 y hs2
        have h4 := extractFrames_some (x ++ y) p.1 (p.2 ++ y) h3
        have hIH := ihn p.2.length (by omega) p.2 rfl
        rw [h4, h2]
        simp only
        rw [hIH]
        simp

  intro x
  exact hmain x.length x rfl

/-- The chunked run of the stream reader computes the extraction of the
concatenated input: the loop state (emitted frames, retained buffer) only
ever depends on the bytes seen so far, not on where the chunk boundaries
fell. -/
theorem processChunks_flatten :
    ∀ (chunks : List (List Char)) (es : List (List Char)) (buf : List Char),
      splitOnce buf = none →
      chunks.foldl feedChunk (es, buf)
        = (es ++ (extractFrames (buf ++ chunks.flatten)).1,
           (extractFrames (buf ++ chunks.flatten)).2) := by
  intro chunks
  induction chunks with
  | nil =>
    intro es buf h
    rw [List.foldl_nil, List.flatten_nil, List.append_nil, extractFrames_none buf h]
    simp
  | cons c cs ih =>
    intro es buf h
    rw [List.foldl_cons]
    have hfeed : feedChunk (es, buf) c
        = (es ++ (extractFrames (buf ++ c)).1, (extractFrames (buf ++ c)).2) := rfl
    rw [hfeed]
    have hrem : splitOnce ((extractFrames (buf ++ c)).2) = none :=
      extractFrames_rem (buf ++ c).length (buf ++ c) le_rfl
    rw [ih _ _ hrem]
    have happ := extractFrames_append cs.flatten (buf ++ c)
    rw [List.flatten_cons, ← List.append_assoc, happ]
    simp [List.append_assoc]

/-- A well-formed frame followed by the delimiter splits off exactly as
itself. -/
theorem splitOnce_valid :
    ∀ (f : List Char), validFrame f = true → ∀ (t : List Char),
      splitOnce (f ++ '\n' :: '\n' :: t) = some (f, t) := by
  intro f
  induction f with
  | nil =>
    intro _ t
    rw [List.nil_append, splitOnce, if_pos ⟨rfl, rfl⟩]
  | cons c rest ih =>
    intro hv t
    cases rest with
    | nil =>
      have hc : ¬ c = '\n' := by
        intro hcc
        subst hcc
        simp [validFrame, splitOnce] at hv
      show splitOnce (c :: '\n' :: '\n' :: t) = _
      rw [splitOnce, if_neg (by

        intro hand
        exact hc hand.1)]
      rw [splitOnce, if_pos ⟨rfl, rfl⟩]
    | cons d rest2 =>
      have hv2 : validFrame (d :: rest2) = true := by
        simp only [validFrame] at hv ⊢
        rw [show ((c :: d :: rest2) ++ ['\n']) = c :: d :: (rest2 ++ ['\n']) from rfl,
          splitOnce] at hv
        split at hv
        · simp at hv
        · cases hs : splitOnce (d :: (rest2 ++ ['\n'])) with
          | none => rw [show ((d :: rest2) ++ ['\n']) = d :: (rest2 ++ ['\n']) from rfl, hs]; rfl
          | some p => rw [hs] at hv; simp at hv
      have hnc : ¬ (c = '\n' ∧ d = '\n') := by
        intro hand
        simp only [validFrame] at hv
        rw [show ((c :: d :: rest2) ++ ['\n']) = c :: d :: (rest2 ++ ['\n']) from rfl,
          splitOnce, if_pos hand] at hv
        simp at hv
      show splitOnce (c :: (d :: rest2) ++ '\n' :: '\n' :: t) = _
      rw [show (c :: (d :: rest2) ++ '\n' :: '\n' :: t)
          = c :: d :: (rest2 ++ '\n' :: '\n' :: t) from rfl, splitOnce, if_neg hnc]
      rw [show (d :: (rest2 ++ '\n' :: '\n' :: t)) = ((d :: rest2) ++ '\n' :: '\n' :: t) from rfl,
        ih hv2 t]

/-- Extracting from an encoded sequence of well-formed frames recovers
exactly that sequence, with an empty remainder. -/
theorem extractFrames_encode :
    ∀ (fs : List (List Char)), (∀ f ∈ fs, validFrame f = true) →
      extractFrames (encodeFrames fs) = (fs, []) := by
  intro fs
  induction fs with
  | nil => intro _; rfl
  | cons f fs ih =>
    intro hv
    have henc : encodeFrames (f :: fs) = f ++ '\n' :: '\n' :: encodeFrames fs := by
      simp [encodeFrames, frameDelim]
    rw [henc]
    have hs := splitOnce_valid f (hv f (List.mem_cons_self f fs)) (encodeFrames fs)
    rw [extractFrames_some _ _ _ hs, ih (fun g hg => hv g (List.mem_cons_of_mem f hg))]

/-- Character-level chunk runs recover the encoded frames: any
character-aligned chunking of the encoded stream yields the original frame
sequence with an empty final buffer. -/
theorem processChunks_encode (fs css : List (List Char))
    (hv : ∀ f ∈ fs, validFrame f = true) (hsplit : css.flatten = encodeFrames fs) :
    processChunks css = (fs, []) := by
  unfold processChunks
  rw [processChunks_flatten css [] [] rfl]
  rw [List.nil_append, List.nil_append, hsplit, extractFrames_encode fs hv]

/-- `Char.ofNat` inverts `Char.toNat` on valid code points. -/
theorem toNat_ofNat_valid (n : Nat) (h : n.isValidChar) : (Char.ofNat n).toNat = n := by
  unfold Char.ofNat
  rw [dif_pos h]
  rfl

theorem utf8DecodeAux_nil : ∀ (fuel : Nat), utf8DecodeAux fuel [] = [] := by
  intro fuel
  cases fuel <;> rfl

/-- The decoding loop ignores extra fuel beyond the buffer length. -/
theorem utf8DecodeAux_congr :
    ∀ (f1 f2 : Nat) (bs : List Nat), bs.length ≤ f1 → bs.length ≤ f2 →
      utf8DecodeAux f1 bs = utf8DecodeAux f2 bs := by
  intro f1
  induction f1 with
  | zero =>
    intro f2 bs h1 _
    have hb : bs = [] := List.length_eq_zero.mp (Nat.le_zero.mp h1)
    subst hb
    rw [utf8DecodeAux_nil, utf8DecodeAux_nil]
  | succ n ih =>
    intro f2 bs h1 h2
    cases f2 with
    | zero =>
      have hb : bs = [] := List.length_eq_zero.mp (Nat.le_zero.mp h2)
      subst hb
      rw [utf8DecodeAux_nil, utf8DecodeAux_nil]
    | succ m =>
      cases bs with
      | nil => rfl
      | cons b rest =>
        rw [utf8DecodeAux, utf8DecodeAux]
        have hd : (List.drop ((utf8Step b rest).2 - 1) rest).length ≤ rest.length := by
          rw [List.length_drop]
          omega
        simp only [List.length_cons] at h1 h2
        rw [ih m (List.drop ((utf8Step b rest).2 - 1) rest) (by omega) (by omega)]

/-- One decoding step of `utf8Decode` on a non-empty buffer. -/
theorem utf8DecodeAux_cons_step (fuel : Nat) (b : Nat) (rest : List Nat)
    (hf : rest.length ≤ fuel) :
    utf8DecodeAux (fuel + 1) (b :: rest)
      = (utf8Step b rest).1 :: utf8Decode (List.drop ((utf8Step b rest).2 - 1) rest) := by
  rw [utf8DecodeAux]
  unfold utf8Decode
  have hd : (List.drop ((utf8Step b rest).2 - 1) rest).length ≤ rest.length := by
    rw [List.length_drop]; omega
  rw [utf8DecodeAux_congr fuel (List.drop ((utf8Step b rest).2 - 1) rest).length _
    (by omega) le_rfl]

theorem utf8Step_ascii (v : Nat) (h : v < 0x80) (rest : List Nat) :
    utf8Step v rest = (Char.ofNat v, 1) := by
  unfold utf8Step
  rw [if_pos h]

theorem utf8Step_two (v : Nat) (h1 : 0x80 ≤ v) (h2 : v < 0x800) (rest : List Nat) :
    utf8Step (0xC0 + v / 64) ((0x80 + v % 64) :: rest) = (Char.ofNat v, 2) := by
  unfold utf8Step
  simp only [List.getD_cons_zero, List.getD_cons_succ]
  rw [if_neg (by omega), if_pos (by omega), if_pos (by omega)]
  have hval : (0xC0 + v / 64 - 0xC0) * 64 + (0x80 + v % 64 - 0x80) = v := by omega
  rw [hval]

theorem utf8Step_three (v : Nat) (h1 : 0x800 ≤ v) (h2 : v < 0x10000)
    (hs : v < 0xD800 ∨ 0xDFFF < v) (rest : List Nat) :
    utf8Step (0xE0 + v / 4096) ((0x80 + v / 64 % 64) :: (0x80 + v % 64) :: rest)
      = (Char.ofNat v, 3) := by
  unfold utf8Step
  simp only [List.getD_cons_zero, List.getD_cons_succ]
  rw [if_neg (by omega), if_neg (by omega), if_pos (by omega)]
  rw [if_pos (by
    refine ⟨by omega, by omega, ?_⟩
    intro hED
    rcases hs with hs | hs <;> omega)]
  rw [if_pos (by omega)]
  have hval : (0xE0 + v / 4096 - 0xE0) * 4096 + (0x80 + v / 64 % 64 - 0x80) * 64
      + (0x80 + v % 64 - 0x80) = v := by omega
  rw [hval]

theorem utf8Step_four (v : Nat) (h1 : 0x10000 ≤ v) (h2 : v < 0x110000) (rest : List Nat) :
    utf8Step (0xF0 + v / 0x40000)
        ((0x80 + v / 4096 % 64) :: (0x80 + v / 64 % 64) :: (0x80 + v % 64) :: rest)
      = (Char.ofNat v, 4) := by
  unfold utf8Step
  simp only [List.getD_cons_zero, List.getD_cons_succ]
  rw [if_neg (by omega), if_neg (by omega), if_neg (by omega), if_pos (by omega)]
  rw [if_pos (by
    refine ⟨by omega, by omega, ?_⟩
    intro hF4
    omega)]
  rw [if_pos (by omega), if_pos (by omega)]
  have hval : (0xF0 + v / 0x40000 - 0xF0) * 0x40000 + (0x80 + v / 4096 % 64 - 0x80) * 4096
      + (0x80 + v / 64 % 64 - 0x80) * 64 + (0x80 + v % 64 - 0x80) = v := by omega
  rw [hval]

/-- Decoding peels one encoded character off the front of a byte buffer. -/
theorem utf8Decode_encodeChar (c : Char) (bs : List Nat) :
    utf8Decode (utf8EncodeChar c ++ bs) = c :: utf8Decode bs := by
  have hv : Nat.isValidChar c.toNat := c.valid
  rcases Nat.lt_or_ge c.toNat 0x80 with h1 | h1
  · have he : utf8EncodeChar c = [c.toNat] := by
      unfold utf8EncodeChar
      rw [if_pos h1]
    rw [he]
    show utf8Decode (c.toNat :: bs) = _
    unfold utf8Decode
    simp only [List.length_cons]
    rw [utf8DecodeAux_cons_step bs.length c.toNat bs le_rfl,
      utf8Step_ascii c.toNat h1 bs, Char.ofNat_toNat]
    simp [utf8Decode]
  · rcases Nat.lt_or_ge c.toNat 0x800 with h2 | h2
    · have he : utf8EncodeChar c = [0xC0 + c.toNat / 64, 0x80 + c.toNat % 64] := by
        unfold utf8EncodeChar
        rw [if_neg (by omega), if_pos h2]
      rw [he]
      show utf8Decode ((0xC0 + c.toNat / 64) :: (0x80 + c.toNat % 64) :: bs) = _
      unfold utf8Decode
      simp only [List.length_cons]
      rw [utf8DecodeAux_cons_step (bs.length + 1) _ _ (by simp only [List.length_cons]; omega),
        utf8Step_two c.toNat h1 h2 bs, Char.ofNat_toNat]
      simp [utf8Decode]
    · rcases Nat.lt_or_ge c.toNat 0x10000 with h3 | h3
      · have hs : c.toNat < 0xD800 ∨ 0xDFFF < c.toNat := by
          rcases hv with hv | hv
          · exact Or.inl hv
          · exact Or.inr hv.1
        have he : utf8EncodeChar c
            = [0xE0 + c.toNat / 4096, 0x80 + c.toNat / 64 % 64, 0x80 + c.toNat % 64] := by
          unfold utf8EncodeChar
          rw [if_neg (by omega), if_neg (by omega), if_pos h3]
        rw [he]
        show utf8Decode ((0xE0 + c.toNat / 4096) :: (0x80 + c.toNat / 64 % 64)
            :: (0x80 + c.toNat % 64) :: bs) = _
        unfold utf8Decode
        simp only [List.length_cons]
        rw [utf8DecodeAux_cons_step (bs.length + 2) _ _ (by simp only [List.length_cons]; omega),
          utf8Step_three c.toNat h2 h3 hs bs, Char.ofNat_toNat]
        simp [utf8Decode]
      · have h4 : c.toNat < 0x110000 := by
          rcases hv with hv | hv
          · omega
          · exact hv.2
        have he : utf8EncodeChar c
            = [0xF0 + c.toNat / 0x40000, 0x80 + c.toNat / 4096 % 64,
               0x80 + c.toNat / 64 % 64, 0x80 + c.toNat % 64] := by
          unfold utf8EncodeChar
          rw [if_neg (by omega), if_neg (by omega), if_neg (by omega)]
        rw [he]
        show utf8Decode ((0xF0 + c.toNat / 0x40000) :: (0x80 + c.toNat / 4096 % 64)
            :: (0x80 + c.toNat / 64 % 64) :: (0x80 + c.toNat % 64) :: bs) = _
        unfold utf8Decode
        simp only [List.length_cons]
        rw [utf8DecodeAux_cons_step (bs.length + 3) _ _ (by simp only [List.length_cons]; omega),
          utf8Step_four c.toNat h3 h4 bs, Char.ofNat_toNat]
        simp [utf8Decode]

/-- Round trip: decoding a complete UTF-8 encoding recovers the string. -/
theorem utf8Decode_encode : ∀ (s : List Char), utf8Decode (utf8Encode s) = s := by
  intro s
  induction s with
  | nil => rfl
  | cons c s ih =>
    have he : utf8Encode (c :: s) = utf8EncodeChar c ++ utf8Encode s := by
      simp [utf8Encode]
    rw [he, utf8Decode_encodeChar, ih]

/-- On a chunk that is a complete encoding, the byte-level loop body agrees
with the character-level one. -/
theorem feedChunkBytes_encode (acc : List (List Char) × List Char) (s : List Char) :
    feedChunkBytes acc (utf8Encode s) = feedChunk acc s := by
  unfold feedChunkBytes feedChunk
  rw [utf8Decode_encode]

/-- A byte-chunk run whose chunks sit on character boundaries computes the
character-level chunk run. -/
theorem processBytes_charSplits :
    ∀ (css : List (List Char)) (acc : List (List Char) × List Char),
      (css.map utf8Encode).foldl feedChunkBytes acc = css.foldl feedChunk acc := by
  intro css
  induction css with
  | nil => intro acc; rfl
  | cons c cs ih =>
    intro acc
    rw [List.map_cons, List.foldl_cons, List.foldl_cons, feedChunkBytes_encode]
    exact ih _

theorem utf8EncodeChar_ascii (c : Char) (h : c.toNat < 0x80) :
    utf8EncodeChar c = [c.toNat] := by
  unfold utf8EncodeChar
  rw [if_pos h]

/-- An all-ASCII string encodes byte-for-byte. -/
theorem utf8Encode_ascii :
    ∀ (s : List Char), (∀ ch ∈ s, ch.toNat < 0x80) →
      utf8Encode s = s.map Char.toNat := by
  intro s
  induction s with
  | nil => intro _; rfl
  | cons c cs ih =>
    intro h
    have he : utf8Encode (c :: cs) = utf8EncodeChar c ++ utf8Encode cs := by
      simp [utf8Encode]
    rw [he, utf8EncodeChar_ascii c (h c (List.mem_cons_self c cs)),
      ih (fun x hx => h x (List.mem_cons_of_mem c hx))]
    rfl

/-- Any list of ASCII bytes is the encoding of its own character reading. -/
theorem utf8Encode_ofNat_bytes :
    ∀ (chunk : List Nat), (∀ b ∈ chunk, b < 0x80) →
      utf8Encode (chunk.map Char.ofNat) = chunk := by
  intro chunk
  induction chunk with
  | nil => intro _; rfl
  | cons b bs ih =>
    intro h
    have hb : b < 0x80 := h b (List.mem_cons_self b bs)
    have hbv : Nat.isValidChar b := Or.inl (by omega)
    have he : utf8Encode (Char.ofNat b :: bs.map Char.ofNat)
        = utf8EncodeChar (Char.ofNat b) ++ utf8Encode (bs.map Char.ofNat) := by
      simp [utf8Encode]
    rw [List.map_cons, he,
      utf8EncodeChar_ascii (Char.ofNat b) (by rw [toNat_ofNat_valid b hbv]; omega),
      toNat_ofNat_valid b hbv, ih (fun x hx => h x (List.mem_cons_of_mem b hx))]
    rfl

/-- Counterexample for claim C3: the frame "é" (U+00E9, UTF-8 bytes
`C3 A9`) followed by the blank-line delimiter, split at the byte offset
inside the character.  Each chunk is decoded in isolation by
`chunk.toString()` (line 146), so both halves of the character become
U+FFFD replacement characters, and the decoded frame sequence differs from
the one-frame-per-chunk run of the very same byte stream — the claim's
"arbitrary offsets" quantifier over the byte stream is false of the
program. -/
theorem c3_counterexample :
    utf8Encode (encodeFrames [[Char.ofNat 0xE9]]) = [0xC3, 0xA9, 0x0A, 0x0A]
    ∧ [[0xC3], [0xA9, 0x0A, 0x0A]].flatten = utf8Encode (encodeFrames [[Char.ofNat 0xE9]])
    ∧ processBytes [utf8Encode ([Char.ofNat 0xE9] ++ frameDelim)]
        = ([[Char.ofNat 0xE9]], [])
    ∧ processBytes [[0xC3], [0xA9, 0x0A, 0x0A]] = ([[repl, repl]], [])
    ∧ [[repl, repl]] ≠ [[Char.ofNat 0xE9]] :=
  ⟨rfl, rfl, rfl, rfl, by decide⟩

/-- Claim C3 (amended): chunk-boundary independence holds for every split of
the byte stream at character boundaries — each chunk is UTF-8-decoded in
isolation (`chunk.toString()`), so splits inside a multi-byte character
corrupt the straddling character, but at character-aligned offsets any
chunking of a well-formed frame sequence yields exactly the original
decoded frames with an empty final buffer, the same as one frame per
chunk; and for a pure-ASCII stream every byte offset is a character
boundary, so there the original claim's arbitrary byte-offset splitting
does hold. -/
theorem c3_amended (fs : List (List Char)) (hv : ∀ f ∈ fs, validFrame f = true) :
    (∀ css : List (List Char), css.flatten = encodeFrames fs →
        processBytes (css.map utf8Encode) = (fs, []))
    ∧ processBytes (fs.map (fun f => utf8Encode (f ++ frameDelim))) = (fs, [])
    ∧ ((∀ ch ∈ encodeFrames fs, ch.toNat < 0x80) →
        ∀ bs : List (List Nat), bs.flatten = utf8Encode (encodeFrames fs) →
          processBytes bs = (fs, [])) := by
  have hchar : ∀ css : List (List Char), css.flatten = encodeFrames fs →
      processBytes (css.map utf8Encode) = (fs, []) := by
    intro css hc
    unfold processBytes
    rw [processBytes_charSplits]
    exact processChunks_encode fs css hv hc
  refine ⟨hchar, ?_, ?_⟩
  · have hone : fs.map (fun f => utf8Encode (f ++ frameDelim))
        = (fs.map (fun f => f ++ frameDelim)).map utf8Encode := by
      rw [List.map_map]
      rfl
    rw [hone]
    exact hchar _ rfl
  · intro hascii bs hb
    have hstream : utf8Encode (encodeFrames fs) = (encodeFrames fs).map Char.toNat :=
      utf8Encode_ascii _ hascii
    have hbytes : ∀ b ∈ bs.flatten, b < 0x80 := by
      intro b hbmem
      rw [hb, hstream] at hbmem
      rcases List.mem_map.mp hbmem with ⟨ch, hch, hcheq⟩
      rw [← hcheq]
      exact hascii ch hch
    have hbs : (bs.map (fun chunk => chunk.map Char.ofNat)).map utf8Encode = bs := by
      rw [List.map_map]
      have : ∀ chunk ∈ bs, (utf8Encode ∘ fun chunk => chunk.map Char.ofNat) chunk = chunk := by
        intro chunk hchunk
        exact utf8Encode_ofNat_bytes chunk
          (fun b hbm => hbytes b (List.mem_flatten.mpr ⟨chunk, hchunk, hbm⟩))
      rw [List.map_congr_left this, List.map_id']
    have hflat : (bs.map (fun chunk => chunk.map Char.ofNat)).flatten = encodeFrames fs := by
      rw [← List.map_flatten, hb, hstream, List.map_map]
      have : ∀ ch ∈ encodeFrames fs, (Char.ofNat ∘ Char.toNat) ch = ch := by
        intro ch _
        exact Char.ofNat_toNat ch
      rw [List.map_congr_left this, List.map_id']
    rw [← hbs]
    exact hchar _ hflat

/-- Witness for the amended C3 at concrete inputs: the frame `"a"` split with
the delimiter straddling two character-aligned chunks, and the same ASCII
stream split at a raw byte offset, are both reassembled to the original
frame. -/
theorem c3_amended_witness :
    processBytes [utf8Encode ['a', '\n'], utf8Encode ['\n']] = ([['a']], [])
    ∧ processBytes [[97, 10], [10]] = ([['a']], []) := by
  have h := c3_amended [['a']] (by decide)
  exact ⟨h.1 [['a', '\n'], ['\n']] (by decide), h.2.2 (by decide) [[97, 10], [10]] (by decide)⟩

end UrbitSSE
